import Mathlib

/-!
# Verification of the puppeteer session / frame-tree orchestration layer

A shallow embedding of the CDP `FrameManager` event handlers
(`src/unnamed/part_002`), the `CdpPage` event forwarding
(`src/unnamed/part_001`) and the utility decorators
(`src/packages/puppeteer-core/src/util/decorators.ts`).

Frame objects are long-lived JavaScript objects whose identity must survive
structural changes of the tree.  We model object identity by an object id
(`Oid`): the store `frameObjs` maps an `Oid` to the current contents of the
`CdpFrame` object, while the frame tree `tree` maps protocol frame ids to
`Oid`s, exactly as `FrameTree`'s `#frames` map maps frame ids to `CdpFrame`
references.  A caller "holding a reference" holds an `Oid`.

Code of the repository that is not among the analyzed sources
(`CdpFrame`, `FrameTree`, `IsolatedWorld` internals, `Deferred`) is modelled
from the specification `spec.md`; each such definition carries a doc comment
starting with `Modelled from the spec:`.
-/

namespace Puppeteer

set_option autoImplicit false

/-! ## Association lists (JS `Map` with insertion order) -/

/-- Lookup in an association list (first entry with the key wins). -/
def alookup {α β : Type} [DecidableEq α] : List (α × β) → α → Option β
  | [], _ => none
  | p :: r, k => if p.1 = k then some p.2 else alookup r k

/-- `Map.set`: replaces the value of an existing key in place, otherwise
appends, preserving JS `Map` insertion order. -/
def aset {α β : Type} [DecidableEq α] : List (α × β) → α → β → List (α × β)
  | [], k, v => [(k, v)]
  | p :: r, k, v => if p.1 = k then (k, v) :: r else p :: aset r k v

/-- `Map.delete`: removes every entry with the key. -/
def adel {α β : Type} [DecidableEq α] : List (α × β) → α → List (α × β)
  | [], _ => []
  | p :: r, k => if p.1 = k then adel r k else p :: adel r k

theorem alookup_aset_self {α β : Type} [DecidableEq α] (l : List (α × β)) (k : α) (v : β) :
    alookup (aset l k v) k = some v := by
  induction l with
  | nil => simp [aset, alookup]
  | cons p r ih =>
    by_cases h : p.1 = k <;> simp [aset, alookup, h, ih]

theorem alookup_aset_ne {α β : Type} [DecidableEq α] (l : List (α × β)) (k k' : α) (v : β)
    (h : k ≠ k') : alookup (aset l k v) k' = alookup l k' := by
  induction l with
  | nil => simp [aset, alookup, h]
  | cons p r ih =>
    by_cases hp : p.1 = k
    · subst hp; simp [aset, alookup, h, ih]
    · by_cases hp' : p.1 = k' <;> simp [aset, alookup, hp, hp', ih, Ne.symm h]

theorem alookup_adel_self {α β : Type} [DecidableEq α] (l : List (α × β)) (k : α) :
    alookup (adel l k) k = none := by
  induction l with
  | nil => simp [adel, alookup]
  | cons p r ih =>
    by_cases h : p.1 = k <;> simp [adel, alookup, h, ih]

theorem alookup_adel_ne {α β : Type} [DecidableEq α] (l : List (α × β)) (k k' : α)
    (h : k ≠ k') : alookup (adel l k) k' = alookup l k' := by
  induction l with
  | nil => simp [adel, alookup]
  | cons p r ih =>
    by_cases hp : p.1 = k
    · have hne : p.1 ≠ k' := hp ▸ h
      simp [adel, alookup, hp, hne, h, ih]
    · by_cases hp' : p.1 = k' <;> simp [adel, alookup, hp, hp', ih, Ne.symm h]

/-! ## The `invokeAtMostOnceForArguments` decorator

From `src/packages/puppeteer-core/src/util/decorators.ts` lines 84-115.
Object arguments are modelled by their identities (`Nat`); the nested
`WeakMap` cache is modelled by a trie over argument identities. -/

/-- The nested `WeakMap` structure built by `invokeAtMostOnceForArguments`. -/
inductive Trie : Type where
  | node : List (Nat × Trie) → Trie
deriving Repr

/-- `WeakMap.get` on one cache level. -/
def trieLookup : List (Nat × Trie) → Nat → Option Trie
  | [], _ => none
  | p :: r, k => if p.1 = k then some p.2 else trieLookup r k

/-- Replace the subtree stored under an existing key. -/
def trieUpdate : List (Nat × Trie) → Nat → Trie → List (Nat × Trie)
  | [], _, _ => []
  | p :: r, k, t => if p.1 = k then (k, t) :: r else p :: trieUpdate r k t

/-- The `for (const arg of args)` loop of the decorator: walks the cache,
inserting fresh `WeakMap` levels for missing arguments; the returned flag is
the final value of `freshArguments`. -/
def walkInsert : Trie → List Nat → Trie × Bool
  | t, [] => (t, false)
  | .node cs, a :: rest =>
    match trieLookup cs a with
    | some sub =>
      let r := walkInsert sub rest
      (.node (trieUpdate cs a r.1), r.2)
    | none =>
      let r := walkInsert (.node []) rest
      (.node (cs ++ [(a, r.1)]), true)

/-- Whether the full argument tuple is already present as a path in the cache. -/
def hasPath : Trie → List Nat → Bool
  | _, [] => true
  | .node cs, a :: rest =>
    match trieLookup cs a with
    | some sub => hasPath sub rest
    | none => false

theorem walkInsert_snd (args : List Nat) : ∀ t : Trie, (walkInsert t args).2 = !hasPath t args := by
  induction args with
  | nil => intro t; simp [walkInsert, hasPath]
  | cons a rest ih =>
    intro t
    match t with
    | .node cs =>
      cases h : trieLookup cs a with
      | some sub => simp [walkInsert, hasPath, h, ih]
      | none => simp [walkInsert, hasPath, h]

/-- The decorator's captured state: `cacheDepth` (where `none` models `-1`)
and the `WeakMap` cache. -/
structure MemoState : Type where
  cacheDepth : Option Nat
  cache : Trie
deriving Repr

/-- Fresh decorator state: `cacheDepth = -1`, empty cache. -/
def memoInit : MemoState := { cacheDepth := none, cache := .node [] }

/-- The outcome of one call of the decorated method.  `outcome = none` models
a thrown `Error`; `outcome = some none` models returning `undefined`;
`outcome = some (some v)` models returning the target's result `v`.
`invoked` records whether the underlying target ran. -/
structure MemoResult : Type where
  state : MemoState
  outcome : Option (Option Nat)
  invoked : Bool
deriving Repr

/-- One call of a method decorated with `invokeAtMostOnceForArguments`
(decorators.ts lines 90-114), with the underlying target modelled as a pure
function of the argument identities. -/
def memoCall (target : List Nat → Nat) (st : MemoState) (args : List Nat) : MemoResult :=
  let depth := match st.cacheDepth with
    | none => args.length
    | some d => d
  if depth ≠ args.length then
    { state := { st with cacheDepth := some depth }, outcome := none, invoked := false }
  else
    let r := walkInsert st.cache args
    let st' : MemoState := { cacheDepth := some depth, cache := r.1 }
    if r.2 then
      { state := st', outcome := some (some (target args)), invoked := true }
    else
      { state := st', outcome := some none, invoked := false }

/-! ## The `moveable` decorator

From `src/packages/puppeteer-core/src/util/decorators.ts` lines 20-59.
Membership of an instance in the module-level `instances` `WeakSet` is the
`moved` flag; `disposeRuns` / `asyncDisposeRuns` count how many times the
original (pre-decoration) dispose bodies actually ran. -/

/-- Observable state of one instance of a `moveable`-decorated class. -/
structure MovState : Type where
  moved : Bool
  disposeRuns : Nat
  asyncDisposeRuns : Nat
deriving Repr, DecidableEq

/-- `move()`: adds the instance to the `instances` WeakSet. -/
def moveCall (s : MovState) : MovState := { s with moved := true }

/-- The wrapped `[Symbol.dispose]`: if the instance is in the WeakSet, remove
it and return without running the original dispose body. -/
def disposeCall (s : MovState) : MovState :=
  if s.moved then { s with moved := false }
  else { s with disposeRuns := s.disposeRuns + 1 }

/-- The wrapped `[Symbol.asyncDispose]`: same suppression logic, sharing the
same `instances` WeakSet. -/
def asyncDisposeCall (s : MovState) : MovState :=
  if s.moved then { s with moved := false }
  else { s with asyncDisposeRuns := s.asyncDisposeRuns + 1 }

/-! ## Data model of the frame-tree orchestration layer

Protocol frame ids, session ids, loader ids, urls and execution-context ids
are modelled as `Nat`.  `Oid`s (`Nat`) are object identities of the
long-lived `CdpFrame` / `ExecutionContext` JavaScript objects. -/

/-- The reserved utility-world name (`UTILITY_WORLD_NAME` in `common/util.js`,
not among the analyzed sources; the exact string is irrelevant, only its
equality test matters). -/
def UTILITY_WORLD_NAME : String := "__puppeteer_utility_world__"

/-- `TIME_FOR_WAITING_FOR_SWAP` (part_002 line 71): the grace window, in
milliseconds, between a client disconnect and the swap signal. -/
def TIME_FOR_WAITING_FOR_SWAP : Nat := 100

/-- Modelled from the spec: a `World` (an `IsolatedWorld` of `CdpFrame`,
not under the analyzed sources) "holds at most one live Execution Context at
a time"; `context` is the execution-context object it currently holds, by
object id. -/
structure World : Type where
  context : Option Nat
deriving Repr, DecidableEq

/-- The contents of one `CdpFrame` object.  `id`, `parentId`, `url`,
`loaderId`, lifecycle flags, owning session (`client`) and the two worlds are
the frame attributes of spec §3.  `detached` and `waitFailure` model the
disposal state: modelled from the spec, disposing a frame resolves every
`Deferred` scoped to it with a terminal failure (`TargetClosed`). -/
structure Frame : Type where
  id : Nat
  parentId : Option Nat
  url : Nat
  loaderId : Nat
  lifecycleEvents : List String
  hasStartedLoading : Bool
  client : Nat
  mainWorld : World
  pupWorld : World
  detached : Bool
  waitFailure : Option String
deriving Repr, DecidableEq

/-- The contents of one `ExecutionContext` object (`ExecutionContext.js`):
its owning session (`_client`), protocol context id, and the world it was
bound to at creation (`_world`), as `(frame oid, isUtilityWorld)`. -/
structure EC : Type where
  client : Nat
  ctxId : Nat
  boundTo : Option (Nat × Bool)
deriving Repr, DecidableEq

/-- The state of a `FrameManager` (part_002):
`client` is `#client` (the session id), `frameObjs` the heap of `CdpFrame`
objects (oid → contents), `tree` the `FrameTree`'s frame-id → frame-object
map, `ecObjs` the heap of `ExecutionContext` objects,
`contextIdToContext` the `#contextIdToContext` registry keyed by
`(session id, context id)`, and `frameNavigatedReceived` the
`#frameNavigatedReceived` set.  `nextOid`/`nextEcOid` allocate fresh object
identities. -/
structure FMState : Type where
  client : Nat
  frameObjs : List (Nat × Frame)
  tree : List (Nat × Nat)
  ecObjs : List (Nat × EC)
  contextIdToContext : List ((Nat × Nat) × Nat)
  nextOid : Nat
  nextEcOid : Nat
  frameNavigatedReceived : List Nat
deriving Repr, DecidableEq

/-- Dereference a frame object id. -/
def frameOf (s : FMState) (oid : Nat) : Option Frame := alookup s.frameObjs oid

/-- `FrameTree.getById` composed with dereferencing: `frame(frameId)` of the
manager returns the frame *object*; we return its oid (`none` = `null`). -/
def getById (s : FMState) (fid : Nat) : Option Nat := alookup s.tree fid

/-- Mutate one frame object in place (JS object mutation: every holder of the
oid observes the change). -/
def updFrame (s : FMState) (oid : Nat) (g : Frame → Frame) : FMState :=
  { s with frameObjs := s.frameObjs.map (fun q => if q.1 = oid then (q.1, g q.2) else q) }

/-- Whether a tree entry holds a live frame whose parent id is `pid`. -/
def childPred (s : FMState) (pid : Nat) (p : Nat × Nat) : Bool :=
  match frameOf s p.2 with
  | some c => decide (c.parentId = some pid)
  | none => false

/-- Modelled from the spec: `childFrames()` — the children of a frame are the
currently-live frames of the same tree whose parent id is this frame's id
(spec §3: a Frame's "set of child Frame ids", its children "are always
currently-live Frames in the same Frame Tree"). -/
def childOids (s : FMState) (oid : Nat) : List Nat :=
  match frameOf s oid with
  | none => []
  | some f => (s.tree.filter (childPred s f.id)).map Prod.snd

/-- Modelled from the spec: `FrameTree.getMainFrame()` — "a Frame with no
parent id is a root and there is exactly one root tracked per page-level
tree". -/
def getMainFrameOid (s : FMState) : Option Nat :=
  (s.tree.find? (fun p =>
    match frameOf s p.2 with
    | some f => decide (f.parentId = none)
    | none => false)).map Prod.snd

/-- Modelled from the spec: the `CdpFrame` constructor — a freshly attached
frame with empty url, no loader, no lifecycle flags, fresh (context-less)
worlds, owned by `client`. -/
def newFrame (fid : Nat) (parentId : Option Nat) (client : Nat) : Frame :=
  { id := fid, parentId := parentId, url := 0, loaderId := 0, lifecycleEvents := [],
    hasStartedLoading := false, client := client, mainWorld := ⟨none⟩, pupWorld := ⟨none⟩,
    detached := false, waitFailure := none }

/-- Modelled from the spec: `FrameTree.addFrame` inserts the frame under its
current id (and resolves any pending `waitForFrame`, which our sequential
embedding performs by a subsequent lookup). -/
def addFrame (s : FMState) (oid : Nat) : FMState :=
  match frameOf s oid with
  | none => s
  | some f => { s with tree := aset s.tree f.id oid }

/-- Modelled from the spec: `FrameTree.removeFrame` deletes the frame's entry
(keyed by its current id) and satisfies no pending waits. -/
def removeFrame (s : FMState) (oid : Nat) : FMState :=
  match frameOf s oid with
  | none => s
  | some f => { s with tree := adel s.tree f.id }

/-- Modelled from the spec: `frame[Symbol.dispose]()` — destroying a frame is
terminal ("`detached` terminal", spec §4.4) and "every Deferred scoped to it
(pending navigation waits, pending swap wait) must be resolved with a
terminal failure" (spec §5), which surfaces to waiting callers as
`TargetClosed` (spec §7, §8). -/
def disposeFrame (f : Frame) : Frame :=
  if f.detached then f
  else { f with detached := true, waitFailure := some "TargetClosed" }

/-- Modelled from the spec: `frame.isOOPFrame()` — an OOPIF is "an
out-of-process subframe, requiring its own Target/Session" (glossary), i.e.
a frame whose owning session differs from the page's session. -/
def isOOPFrame (s : FMState) (f : Frame) : Bool := f.client ≠ s.client

/-- Modelled from the spec: `frame._onLifecycleEvent` — "a lifecycle event
(e.g., "DOMContentLoaded", "load") is dropped if it references a loader id
that is not the Frame's current loader id" (spec §4.4); a non-stale event
records its flag, `navigating` being re-entered ("init") resets the flags. -/
def frameOnLifecycleEvent (f : Frame) (loaderId : Nat) (name : String) : Frame :=
  if loaderId ≠ f.loaderId then f
  else if name = "init" then { f with lifecycleEvents := ["init"] }
  else { f with lifecycleEvents := f.lifecycleEvents ++ [name] }

/-- Modelled from the spec: `frame._navigated(framePayload)` — navigation
updates the frame's URL, and the "loader id (changes every navigation)"
(spec §3). -/
def navigatedFrame (f : Frame) (url loaderId : Nat) : Frame :=
  { f with url := url, loaderId := loaderId }

/-- Modelled from the spec: `frame._navigatedWithinDocument(url)` — a
same-document navigation "updates the Frame's URL only … without resetting
worlds" (spec §4.4). -/
def navigatedWithinDocumentFrame (f : Frame) (url : Nat) : Frame :=
  { f with url := url }

/-- Modelled from the spec: `frame._onLoadingStarted()` — enters the
`loading` lifecycle flag. -/
def frameOnLoadingStarted (f : Frame) : Frame := { f with hasStartedLoading := true }

/-- Modelled from the spec: `IsolatedWorld.setContext` — the world now
exposes this context as its current one. -/
def setWorldContext (s : FMState) (oid : Nat) (isUtil : Bool) (ecOid : Nat) : FMState :=
  updFrame s oid (fun f =>
    if isUtil then { f with pupWorld := ⟨some ecOid⟩ }
    else { f with mainWorld := ⟨some ecOid⟩ })

/-- Modelled from the spec: `IsolatedWorld.clearContext` — the world holds no
live context; "any pending operations bound to the stale context must fail
rather than silently target a new context" (spec §3). -/
def clearWorldContext (s : FMState) (oid : Nat) (isUtil : Bool) : FMState :=
  updFrame s oid (fun f =>
    if isUtil then { f with pupWorld := ⟨none⟩ }
    else { f with mainWorld := ⟨none⟩ })

/-! ## Frame-manager notifications

Only `FrameManager`-level emissions are tracked (these are what `CdpPage`
forwards to API consumers), plus the frame-scoped
`FrameEvent.FrameSwappedByActivation` used by the swap protocol. -/

/-- The notifications a `FrameManager` emits (`FrameManagerEvent`), plus
`FrameEvent.FrameSwappedByActivation`; each carries the frame object. -/
inductive FMEvent : Type where
  | frameAttached (oid : Nat)
  | frameNavigated (oid : Nat)
  | frameDetached (oid : Nat)
  | frameSwapped (oid : Nat)
  | lifecycleEvent (oid : Nat)
  | frameNavigatedWithinDocument (oid : Nat)
  | frameSwappedByActivation (oid : Nat)
deriving Repr, DecidableEq

/-- The page-level events `CdpPage` re-emits for frame-manager notifications
(part_001 lines 146-165: exactly `FrameAttached`, `FrameDetached` and
`FrameNavigated` are forwarded as `PageEvent`s). -/
inductive PageFrameEvent : Type where
  | frameAttached (oid : Nat)
  | frameDetached (oid : Nat)
  | frameNavigated (oid : Nat)
deriving Repr, DecidableEq

/-- `CdpPage`'s `#frameManagerHandlers` table (part_001 lines 146-165). -/
def pageEventOf : FMEvent → Option PageFrameEvent
  | .frameAttached oid => some (.frameAttached oid)
  | .frameDetached oid => some (.frameDetached oid)
  | .frameNavigated oid => some (.frameNavigated oid)
  | _ => none

/-- The page-level notifications produced by a list of frame-manager
notifications. -/
def pageEvents (evs : List FMEvent) : List PageFrameEvent :=
  evs.filterMap pageEventOf

/-! ## The event handlers of `FrameManager` (part_002) -/

/-- `Protocol.Page.Frame` payload fields used by `#onFrameNavigated`. -/
structure FramePayload : Type where
  id : Nat
  parentId : Option Nat
  url : Nat
  loaderId : Nat
deriving Repr, DecidableEq

/-- `Protocol.Runtime.ExecutionContextDescription` payload fields used by
`#onExecutionContextCreated` (`auxData.frameId`, `auxData.isDefault`,
`name`, `id`). -/
structure ContextPayload : Type where
  id : Nat
  name : String
  auxFrameId : Option Nat
  auxIsDefault : Bool
deriving Repr, DecidableEq

/-- `#onFrameAttached` (part_002 lines 367-386). -/
def onFrameAttached (s : FMState) (session fid parentFid : Nat) : FMState × List FMEvent :=
  match getById s fid with
  | some oid =>
    match frameOf s oid with
    | some f =>
      if isOOPFrame s f then (updFrame s oid (fun g => { g with client := session }), [])
      else (s, [])
    | none => (s, [])
  | none =>
    let oid := s.nextOid
    let s1 : FMState := { s with
      frameObjs := aset s.frameObjs oid (newFrame fid (some parentFid) session),
      nextOid := oid + 1 }
    (addFrame s1 oid, [.frameAttached oid])

/-- `#removeFramesRecursively` (part_002 lines 560-568): children first,
then dispose the frame, remove it from the tree, and emit `FrameDetached`.
The recursion is driven by `fuel` (a bound on the tree height); the
handlers call it with fuel `s.tree.length`, which suffices for any
well-formed (cycle-free) tree. -/
def removeRec : Nat → FMState → Nat → FMState × List FMEvent
  | 0, s, _ => (s, [])
  | fuel + 1, s, oid =>
    let r := (childOids s oid).foldl
      (fun acc c =>
        let rc := removeRec fuel acc.1 c
        (rc.1, acc.2 ++ rc.2))
      (s, [])
    (removeFrame (updFrame r.1 oid disposeFrame) oid, r.2 ++ [.frameDetached oid])

/-- `#removeFramesRecursively` entry point. -/
def removeFramesRecursively (s : FMState) (oid : Nat) : FMState × List FMEvent :=
  removeRec s.tree.length s oid

/-- `#onFrameDetached` (part_002 lines 468-488). -/
def onFrameDetached (s : FMState) (fid : Nat) (reason : String) : FMState × List FMEvent :=
  match getById s fid with
  | none => (s, [])
  | some oid =>
    if reason = "remove" then removeFramesRecursively s oid
    else if reason = "swap" then (s, [.frameSwapped oid])
    else (s, [])

/-- The `Page.frameNavigated` listener's `#frameNavigatedReceived.add`
(part_002 line 199; also part_002 line 171 during a swap). -/
def pushNavReceived (s : FMState) (fid : Nat) : FMState :=
  { s with frameNavigatedReceived := s.frameNavigatedReceived ++ [fid] }

/-- The "update frame id to retain frame identity" block of
`#onFrameNavigated` (part_002 lines 406-409, 414): remove the existing
frame object from the tree, assign the event's frame id to the same object,
and re-insert it. -/
def navRekey (s : FMState) (oid fid : Nat) : FMState :=
  addFrame (updFrame (removeFrame s oid) oid (fun f => { f with id := fid })) oid

/-- `#onFrameNavigated` (part_002 lines 388-421), together with the
`Page.frameNavigated` listener (line 198) that first records the id in
`#frameNavigatedReceived`.  The handler detaches all children of the frame
with the event's id, then for a main-frame event re-inserts the existing
frame object (or constructs one), and finally resolves `waitForFrame` and
applies `_navigated`.  For a subframe event whose frame is not yet attached
the handler stays suspended in `waitForFrame`; the suspended continuation is
outside this sequential model. -/
def onFrameNavigated (s0 : FMState) (p : FramePayload) : FMState × List FMEvent :=
  let s : FMState := pushNavReceived s0 p.id
  let isMainFrame : Bool := p.parentId = none
  match getById s p.id with
  | some oid =>
    let r := (childOids s oid).foldl
      (fun acc c =>
        let rc := removeFramesRecursively acc.1 c
        (rc.1, acc.2 ++ rc.2))
      (s, [])
    let s2 := if isMainFrame then navRekey r.1 oid p.id else r.1
    match getById s2 p.id with
    | some oid2 =>
      (updFrame s2 oid2 (fun f => navigatedFrame f p.url p.loaderId),
        r.2 ++ [.frameNavigated oid2])
    | none => (s2, r.2)
  | none =>
    if isMainFrame then
      let oid := s.nextOid
      let s1 : FMState := { s with
        frameObjs := aset s.frameObjs oid (newFrame p.id none s.client),
        nextOid := oid + 1 }
      let s2 := addFrame s1 oid
      (updFrame s2 oid (fun f => navigatedFrame f p.url p.loaderId), [.frameNavigated oid])
    else (s, [])

/-- `#onFrameNavigatedWithinDocument` (part_002 lines 456-466). -/
def onFrameNavigatedWithinDocument (s : FMState) (fid url : Nat) : FMState × List FMEvent :=
  match getById s fid with
  | none => (s, [])
  | some oid =>
    (updFrame s oid (fun f => navigatedWithinDocumentFrame f url),
      [.frameNavigatedWithinDocument oid, .frameNavigated oid])

/-- `#onLifecycleEvent` (part_002 lines 313-321). -/
def onLifecycleEvent (s : FMState) (fid loaderId : Nat) (name : String) :
    FMState × List FMEvent :=
  match getById s fid with
  | none => (s, [])
  | some oid =>
    (updFrame s oid (fun f => frameOnLifecycleEvent f loaderId name), [.lifecycleEvent oid])

/-- `#onFrameStartedLoading` (part_002 lines 323-329). -/
def onFrameStartedLoading (s : FMState) (fid : Nat) : FMState × List FMEvent :=
  match getById s fid with
  | none => (s, [])
  | some oid => (updFrame s oid frameOnLoadingStarted, [])

/-- `#onFrameStoppedLoading` (part_002 lines 331-339); `_onLoadingStopped`
is modelled from the spec as recording the terminal lifecycle flags. -/
def onFrameStoppedLoading (s : FMState) (fid : Nat) : FMState × List FMEvent :=
  match getById s fid with
  | none => (s, [])
  | some oid =>
    (updFrame s oid (fun f =>
      { f with lifecycleEvents := f.lifecycleEvents ++ ["DOMContentLoaded", "load"] }),
      [.lifecycleEvent oid])

/-- `#onExecutionContextCreated` (part_002 lines 490-529). -/
def onExecutionContextCreated (s : FMState) (p : ContextPayload) (session : Nat) : FMState :=
  let foid := p.auxFrameId.bind (getById s)
  match foid with
  | none => s
  | some oid =>
    match frameOf s oid with
    | none => s
    | some f =>
      if f.client ≠ session then s
      else
        let world : Option Bool :=
          if p.auxIsDefault then some false
          else if p.name = UTILITY_WORLD_NAME ∧ f.pupWorld.context = none then some true
          else none
        match world with
        | none => s
        | some isUtil =>
          let ecOid := s.nextEcOid
          let s1 : FMState := { s with
            ecObjs := aset s.ecObjs ecOid
              { client := f.client, ctxId := p.id, boundTo := some (oid, isUtil) },
            nextEcOid := ecOid + 1 }
          let s2 := setWorldContext s1 oid isUtil ecOid
          { s2 with contextIdToContext := aset s2.contextIdToContext (session, p.id) ecOid }

/-- `getExecutionContextById` (part_002 lines 266-271): direct registry
lookup by `(session id, context id)`; returns the context object (its oid). -/
def getExecutionContextById (s : FMState) (ctxId session : Nat) : Option Nat :=
  alookup s.contextIdToContext (session, ctxId)

/-- `#onExecutionContextDestroyed` (part_002 lines 531-544). -/
def onExecutionContextDestroyed (s : FMState) (ctxId session : Nat) : FMState :=
  match alookup s.contextIdToContext (session, ctxId) with
  | none => s
  | some ecOid =>
    let s1 : FMState := { s with contextIdToContext := adel s.contextIdToContext (session, ctxId) }
    match alookup s1.ecObjs ecOid with
    | none => s1
    | some ec =>
      match ec.boundTo with
      | none => s1
      | some (oid, isUtil) => clearWorldContext s1 oid isUtil

/-- One step of the `#onExecutionContextsCleared` loop body. -/
def clearOneContext (session : Nat) (s : FMState) (entry : (Nat × Nat) × Nat) : FMState :=
  match alookup s.ecObjs entry.2 with
  | none => s
  | some ec =>
    if ec.client = session then
      let s1 := match ec.boundTo with
        | none => s
        | some (oid, isUtil) => clearWorldContext s oid isUtil
      { s1 with contextIdToContext := adel s1.contextIdToContext entry.1 }
    else s

/-- `#onExecutionContextsCleared` (part_002 lines 546-558): clears every
registry entry whose context belongs to `session`, clearing its world. -/
def onExecutionContextsCleared (s : FMState) (session : Nat) : FMState :=
  s.contextIdToContext.foldl (clearOneContext session) s

/-! ## Session-level protocol: disconnect and swap (part_002) -/

/-- Phase 1 of `#onClientDisconnect` (part_002 lines 134-148): detach all
children of the main frame recursively, keep the main frame itself pending
the swap signal. -/
def onClientDisconnectChildren (s : FMState) : FMState × List FMEvent :=
  match getMainFrameOid s with
  | none => (s, [])
  | some moid =>
    (childOids s moid).foldl
      (fun acc c =>
        let rc := removeFramesRecursively acc.1 c
        (rc.1, acc.2 ++ rc.2))
      (s, [])

/-- `#onClientDisconnect` when no swap signal arrives within
`TIME_FOR_WAITING_FOR_SWAP` (part_002 lines 134-154): after the children are
detached, the `swapped` deferred times out and the main frame itself is
removed recursively. -/
def onClientDisconnectNoSwap (s : FMState) : FMState × List FMEvent :=
  match getMainFrameOid s with
  | none => (s, [])
  | some moid =>
    let r := (childOids s moid).foldl
      (fun acc c =>
        let rc := removeFramesRecursively acc.1 c
        (rc.1, acc.2 ++ rc.2))
      (s, [])
    let r2 := removeFramesRecursively r.1 moid
    (r2.1, r.2 ++ r2.2)

/-- The first two statements of `swapFrameTree` (part_002 lines 162-164):
clear every execution context of the old session, then adopt the
replacement session as `#client`. -/
def swapBase (s0 : FMState) (newClient : Nat) : FMState :=
  { onExecutionContextsCleared s0 s0.client with client := newClient }

/-- The body of `swapFrameTree`'s `if (frame)` block (part_002 lines
170-178): record the new target id in `#frameNavigatedReceived`, re-key the
frame under its new id (`removeFrame`; `updateId`; `addFrame`), clear both
realms' contexts, and rebind the frame's session (`updateClient`). -/
def swapRebind (s : FMState) (moid newClient newTargetId : Nat) : FMState :=
  updFrame
    (addFrame
      (updFrame
        (updFrame (removeFrame (pushNavReceived s newTargetId) moid) moid
          (fun f => { f with id := newTargetId }))
        moid (fun f => { f with mainWorld := ⟨none⟩, pupWorld := ⟨none⟩ }))
      moid)
    moid (fun f => { f with client := newClient })

/-- `swapFrameTree` (part_002 lines 161-188), driven by `CdpPage`'s
`CDPSessionEvent.Swapped` handler (part_001 lines 259-276): the replacement
session announced itself within the swap timeout.  `newTargetId` is
`client._target()._targetId` of the replacement session.  The protocol
I/O of `initialize` is outside the model; the final
`FrameEvent.FrameSwappedByActivation` emission resolves the pending swap
deferred. -/
def swapFrameTree (s0 : FMState) (newClient newTargetId : Nat) : FMState × List FMEvent :=
  match getMainFrameOid (swapBase s0 newClient) with
  | none => (swapBase s0 newClient, [])
  | some moid =>
    (swapRebind (swapBase s0 newClient) moid newClient newTargetId,
      [.frameSwappedByActivation moid])

/-! ## The inbound protocol events (spec §6) as one step relation -/

/-- The event families `setupEventListeners` subscribes to
(part_002 lines 194-232). -/
inductive CDPEvent : Type where
  | frameAttached (session fid parentFid : Nat)
  | frameNavigated (p : FramePayload)
  | navigatedWithinDocument (fid url : Nat)
  | frameDetached (fid : Nat) (reason : String)
  | frameStartedLoading (fid : Nat)
  | frameStoppedLoading (fid : Nat)
  | executionContextCreated (p : ContextPayload) (session : Nat)
  | executionContextDestroyed (ctxId session : Nat)
  | executionContextsCleared (session : Nat)
  | lifecycleEvent (fid loaderId : Nat) (name : String)
deriving Repr, DecidableEq

/-- Dispatch one inbound protocol event to its handler. -/
def step (s : FMState) : CDPEvent → FMState × List FMEvent
  | .frameAttached session fid parentFid => onFrameAttached s session fid parentFid
  | .frameNavigated p => onFrameNavigated s p
  | .navigatedWithinDocument fid url => onFrameNavigatedWithinDocument s fid url
  | .frameDetached fid reason => onFrameDetached s fid reason
  | .frameStartedLoading fid => onFrameStartedLoading s fid
  | .frameStoppedLoading fid => onFrameStoppedLoading s fid
  | .executionContextCreated p session => (onExecutionContextCreated s p session, [])
  | .executionContextDestroyed ctxId session => (onExecutionContextDestroyed s ctxId session, [])
  | .executionContextsCleared session => (onExecutionContextsCleared s session, [])
  | .lifecycleEvent fid loaderId name => onLifecycleEvent s fid loaderId name

/-- Process a list of inbound events in order, collecting notifications. -/
def run (s : FMState) : List CDPEvent → FMState × List FMEvent
  | [] => (s, [])
  | e :: es =>
    let r := step s e
    let r2 := run r.1 es
    (r2.1, r.2 ++ r2.2)

/-! ## Subtree snapshots

`#removeFramesRecursively` walks the live parent/child structure.  To reason
about it we snapshot the subtree rooted at a frame as an inductive rose
tree; `MatchesT` states that the snapshot is exact. -/

/-- A snapshot of a subtree of the frame tree: each node records the frame
object id and the frame id of one live frame, with its children in tree
order. -/
inductive FTree : Type where
  | node : Nat → Nat → List FTree → FTree
deriving Repr

/-- The frame object id at the root. -/
def FTree.rootOid : FTree → Nat
  | .node oid _ _ => oid

/-- The frame id at the root. -/
def FTree.rootFid : FTree → Nat
  | .node _ fid _ => fid

/-- The roots (object ids) of a forest, in order. -/
def rootsF (cs : List FTree) : List Nat := cs.map FTree.rootOid

mutual
/-- Post-order (deepest-first) listing of the frame object ids of a
subtree: children first, then the node itself. -/
def postT : FTree → List Nat
  | .node oid _ cs => postF cs ++ [oid]

/-- Post-order listing of a forest. -/
def postF : List FTree → List Nat
  | [] => []
  | c :: cs => postT c ++ postF cs
end

mutual
/-- Post-order listing of the frame ids of a subtree. -/
def fidsT : FTree → List Nat
  | .node _ fid cs => fidsF cs ++ [fid]

/-- Post-order listing of the frame ids of a forest. -/
def fidsF : List FTree → List Nat
  | [] => []
  | c :: cs => fidsT c ++ fidsF cs
end

mutual
/-- Height of a subtree (number of levels). -/
def heightT : FTree → Nat
  | .node _ _ cs => heightF cs + 1

/-- Height of a forest. -/
def heightF : List FTree → Nat
  | [] => 0
  | c :: cs => max (heightT c) (heightF cs)
end

/-- `MatchesT s t`: the snapshot `t` exactly describes the live subtree of
`s` at its root: the root object is live with the recorded frame id and is
resolvable in the tree under it, and its children (in tree order) are
exactly the roots of the child snapshots, recursively. -/
inductive MatchesT (s : FMState) : FTree → Prop where
  | node (oid fid : Nat) (cs : List FTree) (f : Frame)
      (hf : frameOf s oid = some f) (hid : f.id = fid)
      (hres : getById s fid = some oid)
      (hch : childOids s oid = rootsF cs)
      (hcs : ∀ c ∈ cs, MatchesT s c) : MatchesT s (.node oid fid cs)

/-- The `FrameTree` representation invariant: the frame-id map has no
duplicate keys and every entry is keyed by its frame's current id. -/
def TreeWF (s : FMState) : Prop :=
  (s.tree.map Prod.fst).Nodup ∧
  ∀ p ∈ s.tree, ∃ f, frameOf s p.2 = some f ∧ f.id = p.1

/-- Dispose every heap object whose oid lies in `a` (frame objects are not
deleted from the heap: callers keep holding them). -/
def disposeIf (a : List Nat) (l : List (Nat × Frame)) : List (Nat × Frame) :=
  l.map (fun q => if q.1 ∈ a then (q.1, disposeFrame q.2) else q)

/-- Delete every tree entry whose frame id lies in `a`. -/
def removeKeys (a : List Nat) (tr : List (Nat × Nat)) : List (Nat × Nat) :=
  tr.filter (fun p => decide (p.1 ∉ a))

/-- The state left behind by recursively removing frames: the listed frame
objects are disposed in place and the listed frame ids dropped from the
tree; nothing else changes. -/
def removedState (s : FMState) (oids fids : List Nat) : FMState :=
  { s with frameObjs := disposeIf oids s.frameObjs, tree := removeKeys fids s.tree }

/-- C8 scenario state: one main frame `A` (fid 1, oid 0) owned by session 0,
with empty worlds. -/
def c8State : FMState :=
  { client := 0, frameObjs := [(0, newFrame 1 none 0)], tree := [(1, 0)],
    ecObjs := [], contextIdToContext := [], nextOid := 1, nextEcOid := 0,
    frameNavigatedReceived := [] }

/-- A context-created payload naming the utility world of frame 1. -/
def utilPayload (ctxId : Nat) : ContextPayload :=
  { id := ctxId, name := UTILITY_WORLD_NAME, auxFrameId := some 1, auxIsDefault := false }

/-- A two-frame state: main frame `A` (oid 0, frame id 1) with one child
`B` (oid 1, frame id 2). -/
def c6State : FMState :=
  { client := 0,
    frameObjs := [(0, newFrame 1 none 0), (1, newFrame 2 (some 1) 0)],
    tree := [(1, 0), (2, 1)], ecObjs := [], contextIdToContext := [],
    nextOid := 2, nextEcOid := 0, frameNavigatedReceived := [] }

/-- The exact snapshot of `c6State`'s tree: `A` above `B`. -/
def c6Tree : FTree := FTree.node 0 1 [FTree.node 1 2 []]

/-- The fields of a frame that tree lookups (`getById`, `getMainFrame`,
`childFrames`) depend on. -/
def frameShape (f : Frame) : Nat × Option Nat × Nat := (f.id, f.parentId, f.client)

/-! ## Generic lemmas about the heap/tree maps -/

theorem alookup_map_update {α β : Type} [DecidableEq α] (l : List (α × β)) (k : α) (g : β → β) :
    alookup (l.map (fun q => if q.1 = k then (q.1, g q.2) else q)) k = (alookup l k).map g := by
  induction l with
  | nil => simp [alookup]
  | cons p r ih => by_cases h : p.1 = k <;> simp [alookup, h, ih]

theorem alookup_map_update_ne {α β : Type} [DecidableEq α] (l : List (α × β)) (k k' : α)
    (g : β → β) (h : k' ≠ k) :
    alookup (l.map (fun q => if q.1 = k then (q.1, g q.2) else q)) k' = alookup l k' := by
  induction l with
  | nil => simp [alookup]
  | cons p r ih =>
    by_cases hp : p.1 = k
    · subst hp
      simp [alookup, Ne.symm h, ih]
    · by_cases hp' : p.1 = k'
      · subst hp'
        simp [alookup, hp]
      · simp [alookup, hp, hp', ih]

theorem map_update_of_not_mem {α β : Type} [DecidableEq α] (l : List (α × β)) (k : α)
    (g : β → β) (h : k ∉ l.map Prod.fst) :
    l.map (fun q => if q.1 = k then (q.1, g q.2) else q) = l := by
  induction l with
  | nil => simp
  | cons p r ih =>
    simp only [List.map_cons, List.mem_cons] at h
    push_neg at h
    simp [Ne.symm h.1, ih h.2]

theorem map_update_eq_self {α β : Type} [DecidableEq α] (l : List (α × β)) (k : α) (g : β → β)
    (hnd : (l.map Prod.fst).Nodup) (h : ∀ v, alookup l k = some v → g v = v) :
    l.map (fun q => if q.1 = k then (q.1, g q.2) else q) = l := by
  induction l with
  | nil => simp
  | cons p r ih =>
    obtain ⟨a, b⟩ := p
    simp only [List.map_cons, List.nodup_cons] at hnd
    by_cases hp : a = k
    · have hv : g b = b := h b (by simp [alookup, hp])
      have hr : r.map (fun q => if q.1 = k then (q.1, g q.2) else q) = r :=
        map_update_of_not_mem r k g (hp ▸ hnd.1)
      subst hp
      simp [hv, hr]
    · have hak : alookup r k = alookup ((a, b) :: r) k := by simp [alookup, hp]
      simp [hp, ih hnd.2 (fun v hv => h v (hak ▸ hv))]

theorem find?_congr_mem {α : Type} (l : List α) (p q : α → Bool) (h : ∀ x ∈ l, p x = q x) :
    l.find? p = l.find? q := by
  induction l with
  | nil => rfl
  | cons x r ih =>
    have hx := h x (by simp)
    by_cases hp : p x = true
    · rw [List.find?_cons_of_pos _ hp, List.find?_cons_of_pos _ (hx ▸ hp)]
    · rw [List.find?_cons_of_neg _ hp, List.find?_cons_of_neg _ (hx ▸ hp),
        ih (fun y hy => h y (by simp [hy]))]

theorem frameOf_updFrame_self (s : FMState) (oid : Nat) (g : Frame → Frame) :
    frameOf (updFrame s oid g) oid = (frameOf s oid).map g :=
  alookup_map_update s.frameObjs oid g

theorem frameOf_updFrame_ne (s : FMState) (oid o : Nat) (g : Frame → Frame) (h : o ≠ oid) :
    frameOf (updFrame s oid g) o = frameOf s o :=
  alookup_map_update_ne s.frameObjs oid o g h

theorem frameOf_def (s : FMState) (oid : Nat) : frameOf s oid = alookup s.frameObjs oid := rfl

theorem removeFrame_frameObjs (s : FMState) (oid : Nat) :
    (removeFrame s oid).frameObjs = s.frameObjs := by
  unfold removeFrame
  cases frameOf s oid <;> rfl

theorem addFrame_frameObjs (s : FMState) (oid : Nat) :
    (addFrame s oid).frameObjs = s.frameObjs := by
  unfold addFrame
  cases frameOf s oid <;> rfl

theorem removeFrame_client (s : FMState) (oid : Nat) :
    (removeFrame s oid).client = s.client := by
  unfold removeFrame
  cases frameOf s oid <;> rfl

theorem addFrame_client (s : FMState) (oid : Nat) :
    (addFrame s oid).client = s.client := by
  unfold addFrame
  cases frameOf s oid <;> rfl

theorem frameOf_removeFrame (s : FMState) (oid o : Nat) :
    frameOf (removeFrame s oid) o = frameOf s o := by
  rw [frameOf_def, removeFrame_frameObjs, ← frameOf_def]

theorem frameOf_addFrame (s : FMState) (oid o : Nat) :
    frameOf (addFrame s oid) o = frameOf s o := by
  rw [frameOf_def, addFrame_frameObjs, ← frameOf_def]

theorem addFrame_tree (s : FMState) (oid : Nat) (f : Frame) (h : frameOf s oid = some f) :
    (addFrame s oid).tree = aset s.tree f.id oid := by
  unfold addFrame
  rw [h]

theorem removeFrame_tree (s : FMState) (oid : Nat) (f : Frame) (h : frameOf s oid = some f) :
    (removeFrame s oid).tree = adel s.tree f.id := by
  unfold removeFrame
  rw [h]

/-! ## Structural lemmas about subtree snapshots -/

theorem ftree_sizeOf_node (oid fid : Nat) (cs : List FTree) :
    sizeOf (FTree.node oid fid cs) = 1 + oid + fid + sizeOf cs := by
  simp [FTree.node.sizeOf_spec]

theorem ftree_strong_ind (P : FTree → Prop)
    (h : ∀ oid fid cs, (∀ c ∈ cs, P c) → P (FTree.node oid fid cs)) : ∀ t, P t := by
  intro t
  generalize hn : sizeOf t = n
  induction n using Nat.strong_induction_on generalizing t with
  | _ n ih =>
    cases t with
    | node oid fid cs =>
      subst hn
      refine h oid fid cs (fun c hc => ih (sizeOf c) ?_ c rfl)
      have h1 : sizeOf c < sizeOf cs := List.sizeOf_lt_of_mem hc
      rw [ftree_sizeOf_node]
      omega

theorem rootFid_mem_fidsT (t : FTree) : t.rootFid ∈ fidsT t := by
  cases t with
  | node oid fid cs => simp [FTree.rootFid, fidsT]

theorem fidsT_subset_fidsF (cs : List FTree) (c : FTree) (hc : c ∈ cs) :
    ∀ x ∈ fidsT c, x ∈ fidsF cs := by
  induction cs with
  | nil => cases hc
  | cons d ds ih =>
    intro x hx
    rcases List.mem_cons.mp hc with h | h
    · subst h
      simp [fidsF, hx]
    · simp [fidsF, ih h x hx]

theorem postT_subset_postF (cs : List FTree) (c : FTree) (hc : c ∈ cs) :
    ∀ x ∈ postT c, x ∈ postF cs := by
  induction cs with
  | nil => cases hc
  | cons d ds ih =>
    intro x hx
    rcases List.mem_cons.mp hc with h | h
    · subst h
      simp [postF, hx]
    · simp [postF, ih h x hx]

theorem rootOid_mem_postT (t : FTree) : t.rootOid ∈ postT t := by
  cases t with
  | node oid fid cs => simp [FTree.rootOid, postT]

theorem length_fidsT_eq_length_postT (t : FTree) :
    (fidsT t).length = (postT t).length := by
  induction t using ftree_strong_ind with
  | _ oid fid cs ih =>
    have : (fidsF cs).length = (postF cs).length := by
      clear oid fid
      induction cs with
      | nil => rfl
      | cons c cs' ihl =>
        have h1 := ih c (by simp)
        have h2 := ihl (fun c hc => ih c (by simp [hc]))
        simp [fidsF, postF, h1, h2]
    simp [fidsT, postT, this]

theorem heightT_le_length_postT (t : FTree) : heightT t ≤ (postT t).length := by
  induction t using ftree_strong_ind with
  | _ oid fid cs ih =>
    have : heightF cs ≤ (postF cs).length := by
      clear oid fid
      induction cs with
      | nil => simp [heightF, postF]
      | cons c cs' ihl =>
        have h1 := ih c (by simp)
        have h2 := ihl (fun c hc => ih c (by simp [hc]))
        have h3 : (postT c).length ≥ 1 := by
          have := rootOid_mem_postT c
          cases hp : postT c with
          | nil => rw [hp] at this; cases this
          | cons a l => simp
        simp only [heightF, postF, List.length_append]
        omega
    simp only [heightT, postT, List.length_append, List.length_cons, List.length_nil]
    omega

/-- Composition of disposals (dispose is idempotent, so overlap is fine). -/
theorem disposeFrame_idem (f : Frame) : disposeFrame (disposeFrame f) = disposeFrame f := by
  unfold disposeFrame
  by_cases h : f.detached <;> simp [h]

theorem disposeFrame_id (f : Frame) : (disposeFrame f).id = f.id := by
  unfold disposeFrame
  by_cases h : f.detached <;> simp [h]

theorem disposeFrame_parentId (f : Frame) : (disposeFrame f).parentId = f.parentId := by
  unfold disposeFrame
  by_cases h : f.detached <;> simp [h]

theorem disposeIf_nil (l : List (Nat × Frame)) : disposeIf [] l = l := by
  unfold disposeIf
  induction l with
  | nil => rfl
  | cons p r ih => simp [ih]

theorem removeKeys_nil (tr : List (Nat × Nat)) : removeKeys [] tr = tr := by
  unfold removeKeys
  induction tr with
  | nil => rfl
  | cons p r ih => simp_all [List.filter]

theorem disposeIf_comp (a b : List Nat) (l : List (Nat × Frame)) :
    disposeIf b (disposeIf a l) = disposeIf (a ++ b) l := by
  unfold disposeIf
  induction l with
  | nil => rfl
  | cons p r ih =>
    simp only [List.map_cons, List.map_map, List.mem_append]
    by_cases ha : p.1 ∈ a <;> by_cases hb : p.1 ∈ b <;>
      simp_all [disposeFrame_idem, Function.comp]

theorem removeKeys_comp (a b : List Nat) (tr : List (Nat × Nat)) :
    removeKeys b (removeKeys a tr) = removeKeys (a ++ b) tr := by
  unfold removeKeys
  induction tr with
  | nil => rfl
  | cons p r ih =>
    by_cases ha : p.1 ∈ a <;> by_cases hb : p.1 ∈ b <;>
      simp_all [List.filter_cons, List.mem_append]

theorem removedState_nil (s : FMState) : removedState s [] [] = s := by
  unfold removedState
  rw [disposeIf_nil, removeKeys_nil]

theorem removedState_comp (s : FMState) (a b a2 b2 : List Nat) :
    removedState (removedState s a b) a2 b2 = removedState s (a ++ a2) (b ++ b2) := by
  show ({ s with
      frameObjs := disposeIf a2 (disposeIf a s.frameObjs),
      tree := removeKeys b2 (removeKeys b s.tree) } : FMState) = _
  rw [disposeIf_comp, removeKeys_comp]
  rfl

theorem alookup_disposeIf (l : List (Nat × Frame)) (a : List Nat) (k : Nat) :
    alookup (disposeIf a l) k
      = if k ∈ a then (alookup l k).map disposeFrame else alookup l k := by
  unfold disposeIf
  induction l with
  | nil => simp [alookup]
  | cons p r ih =>
    by_cases hp : p.1 = k
    · subst hp
      by_cases hk : p.1 ∈ a <;> simp [alookup, hk]
    · by_cases hpa : p.1 ∈ a <;> simp [alookup, hp, hpa, ih]

theorem alookup_removeKeys_mem (tr : List (Nat × Nat)) (a : List Nat) (k : Nat)
    (h : k ∈ a) : alookup (removeKeys a tr) k = none := by
  unfold removeKeys
  induction tr with
  | nil => rfl
  | cons p r ih =>
    by_cases hp : p.1 ∈ a
    · simpa [List.filter_cons, hp] using ih
    · have : p.1 ≠ k := fun he => hp (he ▸ h)
      simpa [List.filter_cons, hp, alookup, this] using ih

theorem alookup_removeKeys_not_mem (tr : List (Nat × Nat)) (a : List Nat) (k : Nat)
    (h : k ∉ a) : alookup (removeKeys a tr) k = alookup tr k := by
  unfold removeKeys
  induction tr with
  | nil => rfl
  | cons p r ih =>
    by_cases hp : p.1 ∈ a
    · have : p.1 ≠ k := fun he => h (he ▸ hp)
      simpa [List.filter_cons, hp, alookup, this] using ih
    · by_cases hpk : p.1 = k <;> simp_all [List.filter_cons, alookup]

theorem frameOf_removedState (s : FMState) (a b : List Nat) (oid : Nat) :
    frameOf (removedState s a b) oid
      = if oid ∈ a then (frameOf s oid).map disposeFrame else frameOf s oid :=
  alookup_disposeIf s.frameObjs a oid

theorem getById_removedState_mem (s : FMState) (a b : List Nat) (fid : Nat) (h : fid ∈ b) :
    getById (removedState s a b) fid = none :=
  alookup_removeKeys_mem s.tree b fid h

theorem getById_removedState_not_mem (s : FMState) (a b : List Nat) (fid : Nat) (h : fid ∉ b) :
    getById (removedState s a b) fid = getById s fid :=
  alookup_removeKeys_not_mem s.tree b fid h

/-! ## Preservation of `MatchesT` under removals -/

theorem filterCongrMem {α : Type} (l : List α) (p q : α → Bool) (h : ∀ x ∈ l, p x = q x) :
    l.filter p = l.filter q := by
  induction l with
  | nil => rfl
  | cons x r ih =>
    have hx := h x (by simp)
    by_cases hp : p x = true <;>
      simp_all [List.filter_cons, fun y hy => h y (List.mem_cons_of_mem x hy)]

theorem filterFilterComm {α : Type} (l : List α) (p q : α → Bool) :
    (l.filter p).filter q = (l.filter q).filter p := by
  induction l with
  | nil => rfl
  | cons x r ih =>
    by_cases hp : p x = true <;> by_cases hq : q x = true <;>
      simp_all [List.filter_cons]

theorem matches_root (s : FMState) (c : FTree) (h : MatchesT s c) :
    ∃ g, frameOf s c.rootOid = some g ∧ g.id = c.rootFid := by
  cases h with
  | node oid fid cs f hf hid _ _ _ => exact ⟨f, hf, hid⟩

theorem childPred_removedState (s : FMState) (a b : List Nat) (pid : Nat) :
    childPred (removedState s a b) pid = childPred s pid := by
  funext p
  unfold childPred
  rw [frameOf_removedState]
  by_cases hp : p.2 ∈ a
  · rw [if_pos hp]
    cases frameOf s p.2 with
    | none => rfl
    | some c => simp [disposeFrame_parentId]
  · rw [if_neg hp]

/-- Filtering tree entries by key matches filtering the snapshot forest by
root frame id (positionally, via the well-formedness invariants). -/
theorem filter_key_map_snd (s : FMState) (b : List Nat) :
    ∀ (tr : List (Nat × Nat)) (cs : List FTree),
    tr.map Prod.snd = rootsF cs →
    (∀ e ∈ tr, ∃ f, frameOf s e.2 = some f ∧ f.id = e.1) →
    (∀ c ∈ cs, ∃ g, frameOf s c.rootOid = some g ∧ g.id = c.rootFid) →
    (tr.filter (fun e => decide (e.1 ∉ b))).map Prod.snd
      = rootsF (cs.filter (fun c => decide (c.rootFid ∉ b))) := by
  intro tr
  induction tr with
  | nil =>
    intro cs hmap _ _
    have : cs = [] := by
      cases cs with
      | nil => rfl
      | cons c cs' => exact absurd hmap.symm (by simp [rootsF])
    subst this
    rfl
  | cons e tr' ih =>
    intro cs hmap hent hroots
    cases cs with
    | nil => exact absurd hmap (by simp [rootsF])
    | cons c cs' =>
      simp only [List.map_cons, rootsF] at hmap
      injection hmap with heq htl
      obtain ⟨fe, hfe, hfeid⟩ := hent e (by simp)
      obtain ⟨g, hg, hgid⟩ := hroots c (by simp)
      rw [heq] at hfe
      rw [hfe] at hg
      have hkey : e.1 = c.rootFid := by
        rw [← hfeid, Option.some_inj.mp hg, hgid]
      have ihr := ih cs' htl (fun x hx => hent x (by simp [hx]))
        (fun x hx => hroots x (by simp [hx]))
      rw [List.filter_cons, List.filter_cons]
      by_cases hb : c.rootFid ∈ b
      · have he1 : ¬e.1 ∉ b := by rw [hkey]; exact fun h => h hb
        rw [if_neg (by simpa using he1), if_neg (by simpa using (fun h => h hb : ¬c.rootFid ∉ b))]
        exact ihr
      · have he1 : e.1 ∉ b := by rw [hkey]; exact hb
        rw [if_pos (by simpa using he1), if_pos (by simpa using hb)]
        simp only [List.map_cons]
        rw [heq, ihr]
        rfl

/-- How removal affects the child list of a surviving frame: exactly the
children whose frame id was removed disappear. -/
theorem childOids_removedState (s : FMState) (a b : List Nat) (moid : Nat) (f : Frame)
    (cs : List FTree) (hf : frameOf s moid = some f) (hch : childOids s moid = rootsF cs)
    (hcs : ∀ c ∈ cs, MatchesT s c) (hwf : TreeWF s) :
    childOids (removedState s a b) moid
      = rootsF (cs.filter (fun c => decide (c.rootFid ∉ b))) := by
  have hch' : (s.tree.filter (childPred s f.id)).map Prod.snd = rootsF cs := by
    rw [show (s.tree.filter (childPred s f.id)).map Prod.snd = childOids s moid by
      unfold childOids; rw [hf]]
    exact hch
  have key := filter_key_map_snd s b (s.tree.filter (childPred s f.id)) cs hch'
    (fun e he => hwf.2 e (List.mem_of_mem_filter he))
    (fun c hc => matches_root s c (hcs c hc))
  unfold childOids
  rw [frameOf_removedState]
  by_cases hm : moid ∈ a
  · rw [if_pos hm, hf]
    show ((removeKeys b s.tree).filter
      (childPred (removedState s a b) (disposeFrame f).id)).map Prod.snd = _
    rw [disposeFrame_id, childPred_removedState]
    show ((s.tree.filter (fun e => decide (e.1 ∉ b))).filter (childPred s f.id)).map Prod.snd = _
    rw [filterFilterComm]
    exact key
  · rw [if_neg hm, hf]
    show ((removeKeys b s.tree).filter
      (childPred (removedState s a b) f.id)).map Prod.snd = _
    rw [childPred_removedState]
    show ((s.tree.filter (fun e => decide (e.1 ∉ b))).filter (childPred s f.id)).map Prod.snd = _
    rw [filterFilterComm]
    exact key

theorem TreeWF_removedState (s : FMState) (a b : List Nat) (hwf : TreeWF s) :
    TreeWF (removedState s a b) := by
  constructor
  · have hsub : (removedState s a b).tree.Sublist s.tree := List.filter_sublist s.tree
    exact hwf.1.sublist (hsub.map Prod.fst)
  · intro p hp
    have hmem : p ∈ s.tree := List.mem_of_mem_filter hp
    obtain ⟨f, hf, hfid⟩ := hwf.2 p hmem
    by_cases hpa : p.2 ∈ a
    · exact ⟨disposeFrame f, by rw [frameOf_removedState]; simp [hpa, hf],
        by rw [disposeFrame_id]; exact hfid⟩
    · exact ⟨f, by rw [frameOf_removedState]; simp [hpa, hf], hfid⟩

/-- Removal of frames whose ids avoid a subtree snapshot preserves the
snapshot's accuracy. -/
theorem MatchesT_removedState (u : FTree) : ∀ (s : FMState) (a b : List Nat),
    MatchesT s u → TreeWF s → (∀ x ∈ fidsT u, x ∉ b) →
    MatchesT (removedState s a b) u := by
  induction u using ftree_strong_ind with
  | _ oid fid cs ih =>
    intro s a b hm hwf hdisj
    cases hm with
    | node _ _ _ f hf hid hres hch hcs =>
      have hfid_mem : fid ∈ fidsT (FTree.node oid fid cs) := by simp [fidsT]
      have hf2 : ∃ f2, frameOf (removedState s a b) oid = some f2 ∧ f2.id = fid := by
        rw [frameOf_removedState]
        by_cases ho : oid ∈ a
        · exact ⟨disposeFrame f, by simp [ho, hf], by rw [disposeFrame_id]; exact hid⟩
        · exact ⟨f, by simp [ho, hf], hid⟩
      obtain ⟨f2, hf2, hf2id⟩ := hf2
      refine MatchesT.node oid fid cs f2 hf2 hf2id ?_ ?_ ?_
      · rw [getById_removedState_not_mem s a b fid (hdisj fid hfid_mem)]
        exact hres
      · rw [childOids_removedState s a b oid f cs hf hch hcs hwf]
        have hall : cs.filter (fun c => decide (c.rootFid ∉ b)) = cs := by
          rw [List.filter_eq_self]
          intro c hc
          simp only [decide_eq_true_eq]
          exact hdisj c.rootFid (by
            simp only [fidsT, List.mem_append]
            exact Or.inl (fidsT_subset_fidsF cs c hc c.rootFid (rootFid_mem_fidsT c)))
        rw [hall]
      · intro c hc
        refine ih c hc s a b (hcs c hc) hwf (fun x hx => hdisj x ?_)
        simp only [fidsT, List.mem_append]
        exact Or.inl (fidsT_subset_fidsF cs c hc x hx)

/-! ## The recursive-removal specification -/

theorem disposeIf_singleton (l : List (Nat × Frame)) (oid : Nat) :
    l.map (fun q => if q.1 = oid then (q.1, disposeFrame q.2) else q) = disposeIf [oid] l := by
  unfold disposeIf
  simp only [List.mem_singleton]

theorem adel_eq_removeKeys (tr : List (Nat × Nat)) (k : Nat) :
    adel tr k = removeKeys [k] tr := by
  unfold removeKeys
  induction tr with
  | nil => rfl
  | cons p r ih => by_cases hp : p.1 = k <;> simp [adel, List.filter_cons, hp, ih]

theorem removeFrame_eq (s : FMState) (oid : Nat) (f : Frame) (h : frameOf s oid = some f) :
    removeFrame s oid = { s with tree := adel s.tree f.id } := by
  unfold removeFrame
  rw [h]

theorem alookup_mem_keys {α β : Type} [DecidableEq α] (l : List (α × β)) (k : α) (v : β)
    (h : alookup l k = some v) : k ∈ l.map Prod.fst := by
  induction l with
  | nil => cases h
  | cons p r ih =>
    by_cases hp : p.1 = k
    · simp [← hp]
    · rw [alookup, if_neg hp] at h
      simp [ih h]

theorem mem_fidsF_exists (cs : List FTree) (x : Nat) (hx : x ∈ fidsF cs) :
    ∃ c ∈ cs, x ∈ fidsT c := by
  induction cs with
  | nil => rw [show fidsF [] = [] from by simp [fidsF]] at hx; cases hx
  | cons c cs' ih =>
    rw [show fidsF (c :: cs') = fidsT c ++ fidsF cs' from by simp [fidsF]] at hx
    rcases List.mem_append.mp hx with h | h
    · exact ⟨c, by simp, h⟩
    · obtain ⟨d, hd, hxd⟩ := ih h
      exact ⟨d, by simp [hd], hxd⟩

theorem matches_fids_resolvable (t : FTree) : ∀ (s : FMState), MatchesT s t →
    ∀ x ∈ fidsT t, ∃ o, getById s x = some o := by
  induction t using ftree_strong_ind with
  | _ oid fid cs ih =>
    intro s hm x hx
    cases hm with
    | node _ _ _ f hf hid hres hch hcs =>
      rw [show fidsT (FTree.node oid fid cs) = fidsF cs ++ [fid] from by simp [fidsT]] at hx
      rcases List.mem_append.mp hx with h | h
      · obtain ⟨c, hc, hxc⟩ := mem_fidsF_exists cs x h
        exact ih c hc s (hcs c hc) x hxc
      · rw [List.mem_singleton.mp h]
        exact ⟨oid, hres⟩

theorem fidsT_length_le_tree (t : FTree) (s : FMState) (hm : MatchesT s t)
    (hfn : (fidsT t).Nodup) : (fidsT t).length ≤ s.tree.length := by
  have hsub : fidsT t ⊆ s.tree.map Prod.fst := by
    intro x hx
    obtain ⟨o, ho⟩ := matches_fids_resolvable t s hm x hx
    exact alookup_mem_keys s.tree x o ho
  have h := (List.subperm_of_subset hfn hsub).length_le
  simpa using h

theorem heightT_le_tree (t : FTree) (s : FMState) (hm : MatchesT s t)
    (hfn : (fidsT t).Nodup) : heightT t ≤ s.tree.length :=
  le_trans (heightT_le_length_postT t)
    (le_trans (le_of_eq (length_fidsT_eq_length_postT t).symm)
      (fidsT_length_le_tree t s hm hfn))

/-- The fold of `removeRec` over a forest of sibling subtrees, at a fixed
fuel bounding every sibling's height. -/
theorem foldRemove_fixed (cs : List FTree)
    (hP : ∀ c ∈ cs, ∀ (s : FMState) (fuel : Nat), MatchesT s c → TreeWF s →
      (fidsT c).Nodup → (postT c).Nodup → heightT c ≤ fuel →
      removeRec fuel s c.rootOid
        = (removedState s (postT c) (fidsT c), (postT c).map FMEvent.frameDetached)) :
    ∀ (s : FMState) (fuel : Nat) (acc : List FMEvent),
    (∀ c ∈ cs, MatchesT s c) → TreeWF s → (fidsF cs).Nodup → (postF cs).Nodup →
    heightF cs ≤ fuel →
    (rootsF cs).foldl
      (fun acc2 c2 => ((removeRec fuel acc2.1 c2).1, acc2.2 ++ (removeRec fuel acc2.1 c2).2))
      (s, acc)
      = (removedState s (postF cs) (fidsF cs),
         acc ++ (postF cs).map FMEvent.frameDetached) := by
  induction cs with
  | nil =>
    intro s fuel acc _ _ _ _ _
    rw [show rootsF [] = [] from rfl, List.foldl_nil,
      show postF ([] : List FTree) = [] from by simp [postF],
      show fidsF ([] : List FTree) = [] from by simp [fidsF], removedState_nil]
    simp
  | cons c cs' ih =>
    intro s fuel acc hm hwf hfn hpn hh
    have hfida : fidsF (c :: cs') = fidsT c ++ fidsF cs' := by simp [fidsF]
    have hposta : postF (c :: cs') = postT c ++ postF cs' := by simp [postF]
    rw [hfida] at hfn
    rw [hposta] at hpn
    obtain ⟨hfn1, hfn2, hfdisj⟩ := List.nodup_append.mp hfn
    obtain ⟨hpn1, hpn2, _⟩ := List.nodup_append.mp hpn
    have hha : heightF (c :: cs') = max (heightT c) (heightF cs') := by simp [heightF]
    rw [hha] at hh
    rw [show rootsF (c :: cs') = c.rootOid :: rootsF cs' from rfl, List.foldl_cons]
    rw [hP c (by simp) s fuel (hm c (by simp)) hwf hfn1 hpn1 (le_trans (le_max_left _ _) hh)]
    have hstep := ih (fun d hd => hP d (by simp [hd]))
      (removedState s (postT c) (fidsT c)) fuel
      (acc ++ (postT c).map FMEvent.frameDetached)
      (fun d hd => MatchesT_removedState d s (postT c) (fidsT c) (hm d (by simp [hd])) hwf
        (fun x hx hxc => hfdisj hxc (fidsT_subset_fidsF cs' d hd x hx)))
      (TreeWF_removedState s _ _ hwf) hfn2 hpn2 (le_trans (le_max_right _ _) hh)
    rw [hstep, removedState_comp]
    rw [hposta, hfida]
    simp [List.map_append]

/-- The central theorem about `#removeFramesRecursively`: called on the
root of an exact subtree snapshot with enough fuel, it disposes exactly the
snapshot's objects, deletes exactly the snapshot's frame ids from the tree,
and emits one `FrameDetached` per node in post-order (deepest first). -/
theorem removeRec_spec (t : FTree) : ∀ (s : FMState) (fuel : Nat),
    MatchesT s t → TreeWF s → (fidsT t).Nodup → (postT t).Nodup → heightT t ≤ fuel →
    removeRec fuel s t.rootOid
      = (removedState s (postT t) (fidsT t), (postT t).map FMEvent.frameDetached) := by
  induction t using ftree_strong_ind with
  | _ oid fid cs ih =>
    intro s fuel hm hwf hfn hpn hh
    have hposteq : postT (FTree.node oid fid cs) = postF cs ++ [oid] := by simp [postT]
    have hfideq : fidsT (FTree.node oid fid cs) = fidsF cs ++ [fid] := by simp [fidsT]
    have hheq : heightT (FTree.node oid fid cs) = heightF cs + 1 := by simp [heightT]
    cases hm with
    | node _ _ _ f hf hid hres hch hcs =>
      cases fuel with
      | zero =>
        rw [hheq] at hh
        exact absurd hh (by omega)
      | succ fu =>
        rw [hposteq] at hpn
        rw [hfideq] at hfn
        obtain ⟨hpn1, _, hpdisj⟩ := List.nodup_append.mp hpn
        obtain ⟨hfn1, _, _⟩ := List.nodup_append.mp hfn
        have hoid_not : oid ∉ postF cs := fun hmem => hpdisj hmem (by simp)
        show removeRec (fu + 1) s oid = _
        simp only [removeRec]
        rw [hch]
        rw [foldRemove_fixed cs (fun c hc => ih c hc) s fu []
          hcs hwf hfn1 hpn1 (by rw [hheq] at hh; omega)]
        have hfr1 : frameOf (removedState s (postF cs) (fidsF cs)) oid = some f := by
          rw [frameOf_removedState, if_neg hoid_not]
          exact hf
        have hupd : frameOf (updFrame (removedState s (postF cs) (fidsF cs)) oid disposeFrame)
            oid = some (disposeFrame f) := by
          rw [frameOf_updFrame_self, hfr1]
          rfl
        rw [removeFrame_eq _ oid (disposeFrame f) hupd]
        rw [Prod.mk.injEq]
        constructor
        · show ({ s with
              frameObjs := (disposeIf (postF cs) s.frameObjs).map
                (fun q => if q.1 = oid then (q.1, disposeFrame q.2) else q),
              tree := adel (removeKeys (fidsF cs) s.tree) (disposeFrame f).id } : FMState)
            = removedState s (postT (FTree.node oid fid cs)) (fidsT (FTree.node oid fid cs))
          rw [hposteq, hfideq, disposeIf_singleton, disposeIf_comp, disposeFrame_id, hid,
            adel_eq_removeKeys, removeKeys_comp]
          rfl
        · rw [hposteq]
          simp [List.map_append]

/-- `#removeFramesRecursively` as called by the handlers (fuel
`s.tree.length`): the fuel always suffices for an exact snapshot. -/
theorem removeFramesRecursively_spec (t : FTree) (s : FMState) (hm : MatchesT s t)
    (hwf : TreeWF s) (hfn : (fidsT t).Nodup) (hpn : (postT t).Nodup) :
    removeFramesRecursively s t.rootOid
      = (removedState s (postT t) (fidsT t), (postT t).map FMEvent.frameDetached) :=
  removeRec_spec t s s.tree.length hm hwf hfn hpn (heightT_le_tree t s hm hfn)

/-- The fold of `#removeFramesRecursively` over sibling subtrees, as
performed by `#onFrameNavigated`, `#onClientDisconnect` and
`#onFrameDetached`'s callers. -/
theorem foldFR_spec (cs : List FTree) : ∀ (s : FMState) (acc : List FMEvent),
    (∀ c ∈ cs, MatchesT s c) → TreeWF s → (fidsF cs).Nodup → (postF cs).Nodup →
    (rootsF cs).foldl
      (fun acc2 c2 => ((removeFramesRecursively acc2.1 c2).1,
        acc2.2 ++ (removeFramesRecursively acc2.1 c2).2)) (s, acc)
      = (removedState s (postF cs) (fidsF cs),
         acc ++ (postF cs).map FMEvent.frameDetached) := by
  induction cs with
  | nil =>
    intro s acc _ _ _ _
    rw [show rootsF [] = [] from rfl, List.foldl_nil,
      show postF ([] : List FTree) = [] from by simp [postF],
      show fidsF ([] : List FTree) = [] from by simp [fidsF], removedState_nil]
    simp
  | cons c cs' ih =>
    intro s acc hm hwf hfn hpn
    have hfida : fidsF (c :: cs') = fidsT c ++ fidsF cs' := by simp [fidsF]
    have hposta : postF (c :: cs') = postT c ++ postF cs' := by simp [postF]
    rw [hfida] at hfn
    rw [hposta] at hpn
    obtain ⟨hfn1, hfn2, hfdisj⟩ := List.nodup_append.mp hfn
    obtain ⟨hpn1, hpn2, _⟩ := List.nodup_append.mp hpn
    rw [show rootsF (c :: cs') = c.rootOid :: rootsF cs' from rfl, List.foldl_cons]
    rw [removeFramesRecursively_spec c s (hm c (by simp)) hwf hfn1 hpn1]
    have hstep := ih (removedState s (postT c) (fidsT c))
      (acc ++ (postT c).map FMEvent.frameDetached)
      (fun d hd => MatchesT_removedState d s (postT c) (fidsT c) (hm d (by simp [hd])) hwf
        (fun x hx hxc => hfdisj hxc (fidsT_subset_fidsF cs' d hd x hx)))
      (TreeWF_removedState s _ _ hwf) hfn2 hpn2
    rw [hstep, removedState_comp]
    rw [hposta, hfida]
    simp [List.map_append]

/-! ## Claim C6: recursive detach completeness -/

theorem matches_getById_root (s : FMState) (t : FTree) (h : MatchesT s t) :
    getById s t.rootFid = some t.rootOid := by
  cases h with
  | node oid fid cs f hf hid hres hch hcs => exact hres

/-- C6: a frame-detached event with reason "remove" for a frame with an
exact live subtree snapshot `t` (the frame plus its `N` live descendants)
emits exactly the post-order (deepest-first) `FrameDetached` notification
per node — `N + 1` notifications in total — and afterwards none of the
`N + 1` frame ids resolves in the frame tree. -/
theorem onFrameDetached_remove_complete (s : FMState) (t : FTree)
    (hm : MatchesT s t) (hwf : TreeWF s) (hfn : (fidsT t).Nodup) (hpn : (postT t).Nodup) :
    (onFrameDetached s t.rootFid "remove").2 = (postT t).map FMEvent.frameDetached ∧
    (onFrameDetached s t.rootFid "remove").2.length = (postT t).length ∧
    ∀ x ∈ fidsT t, getById (onFrameDetached s t.rootFid "remove").1 x = none := by
  have hres := matches_getById_root s t hm
  have hdet : onFrameDetached s t.rootFid "remove" = removeFramesRecursively s t.rootOid := by
    unfold onFrameDetached
    rw [hres]
    rfl
  rw [hdet, removeFramesRecursively_spec t s hm hwf hfn hpn]
  exact ⟨rfl, by simp, fun x hx => getById_removedState_mem s _ _ x hx⟩


theorem c6State_wf : TreeWF c6State := by
  refine ⟨by decide, ?_⟩
  intro p hp
  rcases List.mem_cons.mp hp with h | hp2
  · subst h
    exact ⟨newFrame 1 none 0, rfl, rfl⟩
  · rcases List.mem_cons.mp hp2 with h | h3
    · subst h
      exact ⟨newFrame 2 (some 1) 0, rfl, rfl⟩
    · cases h3

theorem c6State_matches : MatchesT c6State c6Tree := by
  refine MatchesT.node 0 1 [FTree.node 1 2 []] (newFrame 1 none 0) rfl rfl rfl rfl ?_
  intro c hc
  rw [show c = FTree.node 1 2 [] from by simpa using hc]
  exact MatchesT.node 1 2 [] (newFrame 2 (some 1) 0) rfl rfl rfl rfl
    (fun d hd => absurd hd (List.not_mem_nil d))

/-- C6, witness: detaching `A` (which has one live descendant `B`) emits
exactly two detach notifications, `B` first (deepest-first), and afterwards
neither frame id resolves. -/
theorem onFrameDetached_remove_complete_witness :
    (onFrameDetached c6State 1 "remove").2
      = [FMEvent.frameDetached 1, FMEvent.frameDetached 0] ∧
    (onFrameDetached c6State 1 "remove").2.length = 2 ∧
    getById (onFrameDetached c6State 1 "remove").1 1 = none ∧
    getById (onFrameDetached c6State 1 "remove").1 2 = none := by
  have h := onFrameDetached_remove_complete c6State c6Tree c6State_matches c6State_wf
    (by decide) (by decide)
  exact ⟨h.1, h.2.1, h.2.2 1 (by decide), h.2.2 2 (by decide)⟩

/-! ## Claim C2: disconnect holds the main frame pending the swap window -/

/-- After the children's subtrees are removed, the surviving main frame has
no children left. -/
theorem childOids_after_children_removed (s : FMState) (a : List Nat) (moid : Nat)
    (mf : Frame) (cs : List FTree) (hf : frameOf s moid = some mf)
    (hch : childOids s moid = rootsF cs) (hcs : ∀ c ∈ cs, MatchesT s c) (hwf : TreeWF s) :
    childOids (removedState s a (fidsF cs)) moid = [] := by
  rw [childOids_removedState s a (fidsF cs) moid mf cs hf hch hcs hwf]
  have : cs.filter (fun c => decide (c.rootFid ∉ fidsF cs)) = [] := by
    rw [List.filter_eq_nil_iff]
    intro c hc
    simp only [decide_eq_true_eq, not_not]
    exact fidsT_subset_fidsF cs c hc c.rootFid (rootFid_mem_fidsT c)
  rw [this]
  rfl

/-- C2: on client disconnect the children of the main frame are removed
recursively and immediately while the main frame itself is kept resolvable;
the grace window is the tuned constant `TIME_FOR_WAITING_FOR_SWAP = 100` ms;
if no swap signal arrives within the window, the main frame and everything
still under it is removed exactly as an explicit frame-detached("remove")
event for it would, and the disposed main frame fails its pending waits
with `TargetClosed`. -/
theorem onClientDisconnect_spec (s : FMState) (moid : Nat) (mf : Frame) (cs : List FTree)
    (hmain : getMainFrameOid s = some moid) (hf : frameOf s moid = some mf)
    (hch : childOids s moid = rootsF cs) (hcs : ∀ c ∈ cs, MatchesT s c)
    (hwf : TreeWF s) (hfn : (fidsF cs).Nodup) (hpn : (postF cs).Nodup)
    (hmoid : moid ∉ postF cs) (hmfid : mf.id ∉ fidsF cs)
    (hres : getById s mf.id = some moid) (hdet : mf.detached = false) :
    TIME_FOR_WAITING_FOR_SWAP = 100 ∧
    (onClientDisconnectChildren s).1 = removedState s (postF cs) (fidsF cs) ∧
    (∀ x ∈ fidsF cs, getById (onClientDisconnectChildren s).1 x = none) ∧
    getById (onClientDisconnectChildren s).1 mf.id = some moid ∧
    onClientDisconnectNoSwap s
      = ((onFrameDetached (onClientDisconnectChildren s).1 mf.id "remove").1,
         (onClientDisconnectChildren s).2
           ++ (onFrameDetached (onClientDisconnectChildren s).1 mf.id "remove").2) ∧
    (∃ g, frameOf (onClientDisconnectNoSwap s).1 moid = some g ∧
      g.waitFailure = some "TargetClosed" ∧ g.detached = true) := by
  have hph1 : onClientDisconnectChildren s
      = (removedState s (postF cs) (fidsF cs), (postF cs).map FMEvent.frameDetached) := by
    unfold onClientDisconnectChildren
    rw [hmain]
    dsimp only
    rw [hch]
    rw [foldFR_spec cs s [] hcs hwf hfn hpn]
    simp
  have hlook : getById (removedState s (postF cs) (fidsF cs)) mf.id = some moid := by
    rw [getById_removedState_not_mem s _ _ _ hmfid]
    exact hres
  have hfr1 : frameOf (removedState s (postF cs) (fidsF cs)) moid = some mf := by
    rw [frameOf_removedState, if_neg hmoid]
    exact hf
  -- the snapshot of the main frame after its children are gone
  have hmm : MatchesT (removedState s (postF cs) (fidsF cs)) (FTree.node moid mf.id []) := by
    refine MatchesT.node moid mf.id [] mf hfr1 rfl hlook ?_
      (fun d hd => absurd hd (List.not_mem_nil d))
    rw [childOids_after_children_removed s (postF cs) moid mf cs hf hch hcs hwf]
    rfl
  have hmwf : TreeWF (removedState s (postF cs) (fidsF cs)) := TreeWF_removedState s _ _ hwf
  have hrem := removeFramesRecursively_spec (FTree.node moid mf.id [])
    (removedState s (postF cs) (fidsF cs)) hmm hmwf
    (by rw [show fidsT (FTree.node moid mf.id []) = fidsF [] ++ [mf.id] from by simp [fidsT]]
        simp [fidsF])
    (by rw [show postT (FTree.node moid mf.id []) = postF [] ++ [moid] from by simp [postT]]
        simp [postF])
  have hns : onClientDisconnectNoSwap s
      = ((removeFramesRecursively (removedState s (postF cs) (fidsF cs)) moid).1,
         (postF cs).map FMEvent.frameDetached
           ++ (removeFramesRecursively (removedState s (postF cs) (fidsF cs)) moid).2) := by
    unfold onClientDisconnectNoSwap
    rw [hmain]
    dsimp only
    rw [hch]
    rw [foldFR_spec cs s [] hcs hwf hfn hpn]
    simp
  have hfd : onFrameDetached (removedState s (postF cs) (fidsF cs)) mf.id "remove"
      = removeFramesRecursively (removedState s (postF cs) (fidsF cs)) moid := by
    unfold onFrameDetached
    rw [hlook]
    rfl
  rw [show (FTree.node moid mf.id []).rootOid = moid from rfl] at hrem
  refine ⟨rfl, by rw [hph1], ?_, ?_, ?_, ?_⟩
  · intro x hx
    rw [hph1]
    exact getById_removedState_mem s _ _ x hx
  · rw [hph1]
    exact hlook
  · rw [hns, hph1, hfd]
  · rw [hns, hrem]
    refine ⟨disposeFrame mf, ?_, ?_, ?_⟩
    · show frameOf (removedState (removedState s (postF cs) (fidsF cs))
        (postT (FTree.node moid mf.id [])) (fidsT (FTree.node moid mf.id []))) moid
        = some (disposeFrame mf)
      rw [frameOf_removedState,
        if_pos (by
          rw [show postT (FTree.node moid mf.id []) = postF [] ++ [moid] from by simp [postT]]
          simp [postF]), hfr1]
      rfl
    · unfold disposeFrame
      rw [hdet]
      simp
    · unfold disposeFrame
      rw [hdet]
      simp

/-- C2, witness: in the two-frame state (`A` with child `B`) a disconnect
removes `B` immediately but keeps `A`; with no swap, the removal matches the
explicit event and `A`'s pending waits fail with `TargetClosed`. -/
theorem onClientDisconnect_spec_witness :
    TIME_FOR_WAITING_FOR_SWAP = 100 ∧
    getById (onClientDisconnectChildren c6State).1 2 = none ∧
    getById (onClientDisconnectChildren c6State).1 1 = some 0 ∧
    (∃ g, frameOf (onClientDisconnectNoSwap c6State).1 0 = some g ∧
      g.waitFailure = some "TargetClosed" ∧ g.detached = true) := by
  have h := onClientDisconnect_spec c6State 0 (newFrame 1 none 0) [FTree.node 1 2 []]
    rfl rfl rfl
    (fun c hc => by
      rw [show c = FTree.node 1 2 [] from by simpa using hc]
      exact MatchesT.node 1 2 [] (newFrame 2 (some 1) 0) rfl rfl rfl rfl
        (fun d hd => absurd hd (List.not_mem_nil d)))
    c6State_wf (by decide) (by decide) (by decide) (by decide) rfl rfl
  exact ⟨h.1, h.2.2.1 2 (by decide), h.2.2.2.1, h.2.2.2.2.2⟩

/-! ## Claim C3: main-frame navigation -/

theorem alookup_mem_entry {α β : Type} [DecidableEq α] (l : List (α × β)) (k : α) (v : β)
    (h : alookup l k = some v) : (k, v) ∈ l := by
  induction l with
  | nil => cases h
  | cons q r ih =>
    by_cases hq : q.1 = k
    · rw [alookup, if_pos hq] at h
      cases h
      have he : (k, q.2) = q := by rw [← hq]
      rw [he]
      exact List.mem_cons_self q r
    · rw [alookup, if_neg hq] at h
      exact List.mem_cons_of_mem q (ih h)

theorem MatchesT_pushNavReceived (c : FTree) : ∀ (s : FMState) (fid : Nat),
    MatchesT s c → MatchesT (pushNavReceived s fid) c := by
  induction c using ftree_strong_ind with
  | _ oid nfid cs ih =>
    intro s fid hm
    cases hm with
    | node _ _ _ f hf hid hres hch hcs =>
      exact MatchesT.node oid nfid cs f hf hid hres hch
        (fun d hd => ih d hd s fid (hcs d hd))

theorem TreeWF_pushNavReceived (s : FMState) (fid : Nat) (hwf : TreeWF s) :
    TreeWF (pushNavReceived s fid) :=
  ⟨hwf.1, fun q hq => hwf.2 q hq⟩

theorem addFrame_eq (s : FMState) (oid : Nat) (f : Frame) (h : frameOf s oid = some f) :
    addFrame s oid = { s with tree := aset s.tree f.id oid } := by
  unfold addFrame
  rw [h]

/-- The re-keying block keeps the same object: the heap entry at `oid` gets
the new id in place and the tree maps the new id to the same `oid`. -/
theorem navRekey_spec (s : FMState) (oid fid : Nat) (mf : Frame)
    (hf : frameOf s oid = some mf) :
    navRekey s oid fid
      = { s with
          frameObjs := s.frameObjs.map
            (fun q => if q.1 = oid then (q.1, { q.2 with id := fid }) else q),
          tree := aset (adel s.tree mf.id) fid oid } := by
  unfold navRekey
  rw [removeFrame_eq s oid mf hf]
  have hupd : frameOf (updFrame ({ s with tree := adel s.tree mf.id } : FMState) oid
      (fun f => { f with id := fid })) oid = some { mf with id := fid } := by
    rw [frameOf_updFrame_self]
    rw [show frameOf ({ s with tree := adel s.tree mf.id } : FMState) oid = some mf from hf]
    rfl
  rw [addFrame_eq _ oid _ hupd]
  rfl

/-- C3, counterexample.  A frame-navigated event about the main frame (no
parent id) whose id is not the current main frame's id: `#onFrameNavigated`
looks the frame up by the *event's* id only, finds nothing, and constructs a
brand-new `Frame` object — although a main `Frame` object already exists —
and the existing main frame's id is not updated.  This contradicts the
claim that a new `Frame` is constructed only when no main `Frame` exists
yet and that the existing object's id is updated in place. -/
theorem onFrameNavigated_existing_main_cex :
    getMainFrameOid c8State = some 0 ∧
    (onFrameNavigated c8State { id := 7, parentId := none, url := 3, loaderId := 2 }).1.nextOid
      = c8State.nextOid + 1 ∧
    frameOf (onFrameNavigated c8State { id := 7, parentId := none, url := 3, loaderId := 2 }).1 0
      = some (newFrame 1 none 0) ∧
    getById (onFrameNavigated c8State { id := 7, parentId := none, url := 3, loaderId := 2 }).1 7
      = some 1 := by
  refine ⟨?_, ?_, ?_, ?_⟩ <;> decide

/-- C3 (amended): for a frame-navigated event about the main frame carrying
a new loader id, *when a frame with the event's frame id exists*: first
every current child frame is recursively detached and destroyed (their ids
no longer resolve), then that same frame object — identity preserved — is
re-inserted into the tree under the event's id with its id field updated in
place and its URL updated; no new `Frame` object is constructed; the
emissions are the children's deepest-first detach notifications followed by
one `FrameNavigated` for the same object.  (A new `Frame` is constructed
whenever no frame with the event's id exists — even if a different main
`Frame` is present.) -/
theorem onFrameNavigated_main_spec (s : FMState) (p : FramePayload) (moid : Nat)
    (mf : Frame) (cs : List FTree)
    (hpar : p.parentId = none) (hnew : p.loaderId ≠ mf.loaderId)
    (hoid : getById s p.id = some moid) (hf : frameOf s moid = some mf)
    (hch : childOids s moid = rootsF cs) (hcs : ∀ c ∈ cs, MatchesT s c)
    (hwf : TreeWF s) (hfn : (fidsF cs).Nodup) (hpn : (postF cs).Nodup)
    (hmoid : moid ∉ postF cs) (hpfid : p.id ∉ fidsF cs) :
    (∀ x ∈ fidsF cs, getById (onFrameNavigated s p).1 x = none) ∧
    getById (onFrameNavigated s p).1 p.id = some moid ∧
    (∃ g, frameOf (onFrameNavigated s p).1 moid = some g ∧ g.url = p.url ∧ g.id = p.id) ∧
    (onFrameNavigated s p).1.nextOid = s.nextOid ∧
    (onFrameNavigated s p).2
      = (postF cs).map FMEvent.frameDetached ++ [FMEvent.frameNavigated moid] := by
  have hentry : (p.id, moid) ∈ s.tree := alookup_mem_entry s.tree p.id moid hoid
  obtain ⟨f2, hf2, hfid2⟩ := hwf.2 _ hentry
  have hmfid : mf.id = p.id := by
    rw [hf] at hf2
    cases hf2
    exact hfid2
  have hfrR : frameOf (removedState (pushNavReceived s p.id) (postF cs) (fidsF cs)) moid
      = some mf := by
    rw [frameOf_removedState, if_neg hmoid]
    exact hf
  have hrk := navRekey_spec (removedState (pushNavReceived s p.id) (postF cs) (fidsF cs))
    moid p.id mf hfrR
  have hlook2 : getById (navRekey (removedState (pushNavReceived s p.id) (postF cs)
      (fidsF cs)) moid p.id) p.id = some moid := by
    rw [hrk]
    show alookup (aset (adel (removeKeys (fidsF cs) s.tree) mf.id) p.id moid) p.id = some moid
    exact alookup_aset_self _ p.id moid
  have hstep : onFrameNavigated s p
      = (updFrame (navRekey (removedState (pushNavReceived s p.id) (postF cs) (fidsF cs))
            moid p.id) moid (fun f => navigatedFrame f p.url p.loaderId),
         (postF cs).map FMEvent.frameDetached ++ [FMEvent.frameNavigated moid]) := by
    unfold onFrameNavigated
    dsimp only
    rw [show getById (pushNavReceived s p.id) p.id = some moid from hoid]
    dsimp only
    rw [show childOids (pushNavReceived s p.id) moid = rootsF cs from hch]
    rw [foldFR_spec cs (pushNavReceived s p.id) []
      (fun c hc => MatchesT_pushNavReceived c s p.id (hcs c hc))
      (TreeWF_pushNavReceived s p.id hwf) hfn hpn]
    rw [hpar]
    simp only [decide_eq_true_eq, if_true]
    rw [hlook2]
    dsimp only
    rw [List.nil_append]
  refine ⟨?_, ?_, ?_, ?_, ?_⟩
  · intro x hx
    rw [hstep]
    show alookup (navRekey (removedState (pushNavReceived s p.id) (postF cs) (fidsF cs))
      moid p.id).tree x = none
    rw [hrk]
    show alookup (aset (adel (removeKeys (fidsF cs) s.tree) mf.id) p.id moid) x = none
    have hxp : x ≠ p.id := fun he => hpfid (he ▸ hx)
    rw [alookup_aset_ne _ _ _ _ (fun he => hxp he.symm)]
    rw [alookup_adel_ne _ _ _ (fun he => hxp (by rw [← he, hmfid])), ]
    exact alookup_removeKeys_mem s.tree (fidsF cs) x hx
  · rw [hstep]
    exact hlook2
  · rw [hstep]
    refine ⟨navigatedFrame { mf with id := p.id } p.url p.loaderId, ?_, rfl, rfl⟩
    have hnav : frameOf (navRekey (removedState (pushNavReceived s p.id) (postF cs)
        (fidsF cs)) moid p.id) moid = some { mf with id := p.id } := by
      unfold navRekey
      rw [frameOf_addFrame, frameOf_updFrame_self, frameOf_removeFrame, hfrR]
      rfl
    show frameOf (updFrame _ moid _) moid = _
    rw [frameOf_updFrame_self, hnav]
    rfl
  · rw [hstep]
    show (navRekey (removedState (pushNavReceived s p.id) (postF cs) (fidsF cs))
      moid p.id).nextOid = s.nextOid
    rw [hrk]
    rfl
  · rw [hstep]

/-- C3, witness: the concrete scenario — root `A` (frame id 1), events
[attach(`B` = frame id 2, parent `A`), navigate(`A`, new loader 2)] leave
`B` detached, `A` present under its id with the same object identity, its
URL updated, and its worlds empty. -/
theorem onFrameNavigated_main_spec_witness :
    getById (onFrameNavigated (onFrameAttached c8State 0 2 1).1
      { id := 1, parentId := none, url := 7, loaderId := 2 }).1 2 = none ∧
    getById (onFrameNavigated (onFrameAttached c8State 0 2 1).1
      { id := 1, parentId := none, url := 7, loaderId := 2 }).1 1 = some 0 ∧
    (∃ g, frameOf (onFrameNavigated (onFrameAttached c8State 0 2 1).1
      { id := 1, parentId := none, url := 7, loaderId := 2 }).1 0 = some g ∧
      g.url = 7 ∧ g.id = 1) ∧
    frameOf (onFrameNavigated (onFrameAttached c8State 0 2 1).1
      { id := 1, parentId := none, url := 7, loaderId := 2 }).1 0
      = some { newFrame 1 none 0 with url := 7, loaderId := 2 } := by
  have hwfA : TreeWF (onFrameAttached c8State 0 2 1).1 := by
    constructor
    · decide
    · intro q hq
      rw [show (onFrameAttached c8State 0 2 1).1.tree = [(1, 0), (2, 1)] from by decide] at hq
      rcases List.mem_cons.mp hq with he | hq2
      · subst he
        exact ⟨newFrame 1 none 0, by decide, by decide⟩
      · rcases List.mem_cons.mp hq2 with he | h3
        · subst he
          exact ⟨newFrame 2 (some 1) 0, by decide, by decide⟩
        · cases h3
  have h := onFrameNavigated_main_spec (onFrameAttached c8State 0 2 1).1
    { id := 1, parentId := none, url := 7, loaderId := 2 } 0 (newFrame 1 none 0)
    [FTree.node 1 2 []] rfl (by decide) (by decide) (by decide) (by decide)
    (fun c hc => by
      rw [show c = FTree.node 1 2 [] from by simpa using hc]
      exact MatchesT.node 1 2 [] (newFrame 2 (some 1) 0) (by decide) (by decide)
        (by decide) (by decide) (fun d hd => absurd hd (List.not_mem_nil d)))
    hwfA (by decide) (by decide) (by decide) (by decide)
  exact ⟨h.1 2 (by decide), h.2.1, h.2.2.1, by decide⟩

/-! ## Claim C4: idempotent attach -/

/-- C4: frame attach is idempotent — a second attach event carrying an
already-known `frameId` emits no `FrameAttached` notification, leaves the
tree map untouched, constructs no new `Frame` object (the allocator and the
heap size are unchanged), leaves every other frame object untouched, and its
only possible effect on the existing frame is rebinding its session to the
event's session (which the code performs exactly when the frame is currently
an out-of-process frame). -/
theorem onFrameAttached_idempotent (s : FMState) (session fid parentFid oid : Nat) (f : Frame)
    (hoid : getById s fid = some oid) (hf : frameOf s oid = some f) :
    (onFrameAttached s session fid parentFid).2 = [] ∧
    (onFrameAttached s session fid parentFid).1.tree = s.tree ∧
    (onFrameAttached s session fid parentFid).1.nextOid = s.nextOid ∧
    (onFrameAttached s session fid parentFid).1.frameObjs.length = s.frameObjs.length ∧
    frameOf (onFrameAttached s session fid parentFid).1 oid =
      some { f with client := if isOOPFrame s f then session else f.client } ∧
    (∀ o, o ≠ oid → frameOf (onFrameAttached s session fid parentFid).1 o = frameOf s o) := by
  unfold onFrameAttached
  rw [hoid]
  dsimp only
  rw [hf]
  dsimp only
  by_cases hoop : isOOPFrame s f
  · refine ⟨by simp [hoop], by simp [hoop, updFrame], by simp [hoop, updFrame],
      by simp [hoop, updFrame], ?_, ?_⟩
    · rw [if_pos hoop]
      simp only [hoop, if_true]
      rw [frameOf_updFrame_self, hf]
      rfl
    · intro o ho
      simp only [hoop, if_true]
      exact frameOf_updFrame_ne s oid o _ ho
  · refine ⟨by simp [hoop], by simp [hoop], by simp [hoop], by simp [hoop], ?_, ?_⟩
    · simp [hoop, hf]
    · intro o _
      simp [hoop]

/-- C4, witness: a duplicate attach for an out-of-process frame at a concrete
state — no notification, same tree, no new object, session rebound. -/
theorem onFrameAttached_idempotent_witness :
    (onFrameAttached
        { client := 0,
          frameObjs := [(0, newFrame 1 none 7)],
          tree := [(1, 0)], ecObjs := [], contextIdToContext := [],
          nextOid := 1, nextEcOid := 0, frameNavigatedReceived := [] } 0 1 5).2 = [] ∧
    (onFrameAttached
        { client := 0,
          frameObjs := [(0, newFrame 1 none 7)],
          tree := [(1, 0)], ecObjs := [], contextIdToContext := [],
          nextOid := 1, nextEcOid := 0, frameNavigatedReceived := [] } 0 1 5).1.nextOid = 1 := by
  refine ⟨(onFrameAttached_idempotent _ 0 1 5 0 (newFrame 1 none 7) (by decide) (by decide)).1,
    (onFrameAttached_idempotent _ 0 1 5 0 (newFrame 1 none 7) (by decide) (by decide)).2.2.1⟩

/-! ## Claim C7: stale lifecycle rejection -/

/-- C7: a lifecycle event whose loader id differs from the frame's current
loader id produces no state change at all — the frame manager state
(including the frame's lifecycle flags, URL and loader id) is exactly
unchanged — and the only notification emitted is the `LifecycleEvent` ping,
which carries no state change and is not among the notifications `CdpPage`
forwards to callers (no page-level event results). -/
theorem staleLifecycleEvent_noop (s : FMState) (fid loaderId : Nat) (name : String)
    (oid : Nat) (f : Frame) (hnd : (s.frameObjs.map Prod.fst).Nodup)
    (hoid : getById s fid = some oid) (hf : frameOf s oid = some f)
    (hstale : loaderId ≠ f.loaderId) :
    (onLifecycleEvent s fid loaderId name).1 = s ∧
    (onLifecycleEvent s fid loaderId name).2 = [.lifecycleEvent oid] ∧
    pageEvents (onLifecycleEvent s fid loaderId name).2 = [] := by
  unfold onLifecycleEvent
  rw [hoid]
  have hobjs : (updFrame s oid (fun g => frameOnLifecycleEvent g loaderId name)) = s := by
    unfold updFrame
    have : s.frameObjs.map
        (fun q => if q.1 = oid then (q.1, frameOnLifecycleEvent q.2 loaderId name) else q)
        = s.frameObjs := by
      refine map_update_eq_self s.frameObjs oid
        (fun g => frameOnLifecycleEvent g loaderId name) hnd ?_
      intro v hv
      rw [show alookup s.frameObjs oid = frameOf s oid from rfl, hf] at hv
      cases hv
      show frameOnLifecycleEvent f loaderId name = f
      unfold frameOnLifecycleEvent
      rw [if_pos hstale]
    rw [this]
  refine ⟨hobjs, rfl, ?_⟩
  simp [pageEvents, pageEventOf]

/-- C7, witness: at a concrete one-frame state, a "load" lifecycle event
carrying a stale loader id changes nothing. -/
theorem staleLifecycleEvent_noop_witness :
    (onLifecycleEvent
        { client := 0,
          frameObjs := [(0, newFrame 1 none 0)],
          tree := [(1, 0)], ecObjs := [], contextIdToContext := [],
          nextOid := 1, nextEcOid := 0, frameNavigatedReceived := [] } 1 9 "load").1 =
      { client := 0,
        frameObjs := [(0, newFrame 1 none 0)],
        tree := [(1, 0)], ecObjs := [], contextIdToContext := [],
        nextOid := 1, nextEcOid := 0, frameNavigatedReceived := [] } :=
  (staleLifecycleEvent_noop _ 1 9 "load" 0 (newFrame 1 none 0)
    (by decide) (by decide) (by decide) (by decide)).1

/-! ## Claims C5 and C8: execution-context binding -/

theorem option_toList_length_le_one (o : Option Nat) : o.toList.length ≤ 1 := by
  cases o <;> simp

/-- How `#onExecutionContextCreated` can affect a frame object: either it
leaves it untouched, or it binds the new context object to its main world
(default realm), or to its utility world — the latter only when the event
names the reserved utility-world name and the utility world holds no live
context. -/
theorem onExecutionContextCreated_frame_cases (s : FMState) (p : ContextPayload)
    (session oid : Nat) :
    frameOf (onExecutionContextCreated s p session) oid = frameOf s oid ∨
    (∃ f, frameOf s oid = some f ∧
      frameOf (onExecutionContextCreated s p session) oid
        = some { f with mainWorld := ⟨some s.nextEcOid⟩ } ∧ p.auxIsDefault = true) ∨
    (∃ f, frameOf s oid = some f ∧
      frameOf (onExecutionContextCreated s p session) oid
        = some { f with pupWorld := ⟨some s.nextEcOid⟩ } ∧
      p.name = UTILITY_WORLD_NAME ∧ f.pupWorld.context = none) := by
  unfold onExecutionContextCreated
  cases hfoid : p.auxFrameId.bind (getById s) with
  | none => exact Or.inl rfl
  | some foid =>
    dsimp only
    cases hfr : frameOf s foid with
    | none => exact Or.inl rfl
    | some f =>
      dsimp only
      by_cases hcl : f.client ≠ session
      · rw [if_pos hcl]
        exact Or.inl rfl
      · rw [if_neg hcl]
        by_cases hdef : p.auxIsDefault
        · rw [if_pos hdef]
          dsimp only
          by_cases hoid : foid = oid
          · subst hoid
            refine Or.inr (Or.inl ⟨f, hfr, ?_, hdef⟩)
            show frameOf
              (updFrame s foid (fun g => { g with mainWorld := ⟨some s.nextEcOid⟩ })) foid
              = some { f with mainWorld := ⟨some s.nextEcOid⟩ }
            rw [frameOf_updFrame_self, hfr]
            rfl
          · refine Or.inl ?_
            show frameOf
              (updFrame s foid (fun g => { g with mainWorld := ⟨some s.nextEcOid⟩ })) oid
              = frameOf s oid
            exact frameOf_updFrame_ne _ _ _ _ (fun h => hoid h.symm)
        · rw [if_neg hdef]
          by_cases hw : p.name = UTILITY_WORLD_NAME ∧ f.pupWorld.context = none
          · rw [if_pos hw]
            dsimp only
            by_cases hoid : foid = oid
            · subst hoid
              refine Or.inr (Or.inr ⟨f, hfr, ?_, hw.1, hw.2⟩)
              show frameOf
                (updFrame s foid (fun g => { g with pupWorld := ⟨some s.nextEcOid⟩ })) foid
                = some { f with pupWorld := ⟨some s.nextEcOid⟩ }
              rw [frameOf_updFrame_self, hfr]
              rfl
            · refine Or.inl ?_
              show frameOf
                (updFrame s foid (fun g => { g with pupWorld := ⟨some s.nextEcOid⟩ })) oid
                = frameOf s oid
              exact frameOf_updFrame_ne _ _ _ _ (fun h => hoid h.symm)
          · rw [if_neg hw]
            exact Or.inl rfl

/-- C5: world/context exclusivity.  After any inbound protocol event a world
holds at most one live execution context; a context-created event leaves a
utility world that already holds a live context untouched (the first context
wins); and a context-created event re-binds a frame's utility world only
when it names the reserved utility-world name and that world held no live
context. -/
theorem worldContextExclusivity (s : FMState) (e : CDPEvent) :
    (∀ oid f, frameOf (step s e).1 oid = some f →
      f.mainWorld.context.toList.length ≤ 1 ∧ f.pupWorld.context.toList.length ≤ 1) ∧
    (∀ p session oid f c, e = .executionContextCreated p session →
      frameOf s oid = some f → f.pupWorld.context = some c →
      ∃ g, frameOf (step s e).1 oid = some g ∧ g.pupWorld.context = some c) ∧
    (∀ p session oid f g, e = .executionContextCreated p session →
      frameOf s oid = some f → frameOf (step s e).1 oid = some g →
      g.pupWorld ≠ f.pupWorld →
      p.name = UTILITY_WORLD_NAME ∧ f.pupWorld.context = none) := by
  refine ⟨?_, ?_, ?_⟩
  · intro oid f _
    exact ⟨option_toList_length_le_one _, option_toList_length_le_one _⟩
  · rintro p session oid f c rfl hf hc
    rcases onExecutionContextCreated_frame_cases s p session oid with h | ⟨f1, hf1, h, _⟩ |
        ⟨f1, hf1, _, _, hnone⟩
    · exact ⟨f, by rw [show (step s (.executionContextCreated p session)).1
        = onExecutionContextCreated s p session from rfl, h, hf], hc⟩
    · rw [hf] at hf1
      cases hf1
      exact ⟨_, h, hc⟩
    · rw [hf] at hf1
      cases hf1
      rw [hnone] at hc
      cases hc
  · rintro p session oid f g rfl hf hg hne
    rcases onExecutionContextCreated_frame_cases s p session oid with h | ⟨f1, hf1, h, _⟩ |
        ⟨f1, hf1, h, hn, hnone⟩
    · rw [show (step s (.executionContextCreated p session)).1
        = onExecutionContextCreated s p session from rfl] at hg
      rw [h, hf] at hg
      cases hg
      exact absurd rfl hne
    · rw [hf] at hf1
      cases hf1
      rw [show (step s (.executionContextCreated p session)).1
        = onExecutionContextCreated s p session from rfl] at hg
      rw [h] at hg
      cases hg
      exact absurd rfl hne
    · rw [hf] at hf1
      cases hf1
      exact ⟨hn, hnone⟩

/-- C5, witness: a second utility-world context-created event at a concrete
state whose utility world already holds context `5` leaves that binding
unchanged. -/
theorem worldContextExclusivity_witness :
    ∃ g, frameOf (step
      { client := 0,
        frameObjs := [(0, { newFrame 1 none 0 with pupWorld := ⟨some 5⟩ })],
        tree := [(1, 0)], ecObjs := [], contextIdToContext := [],
        nextOid := 1, nextEcOid := 6, frameNavigatedReceived := [] }
      (.executionContextCreated
        { id := 2, name := UTILITY_WORLD_NAME, auxFrameId := some 1, auxIsDefault := false }
        0)).1 0 = some g ∧ g.pupWorld.context = some 5 :=
  (worldContextExclusivity _ _).2.1 _ 0 0 _ 5 rfl rfl rfl


/-- C8, counterexample.  Two context-created events on the same session both
naming the utility world of the same frame: the handler returns before
creating the second `ExecutionContext` (`if (!world) return`), so the second
context id is *not* reachable via direct registry lookup by
`(session, context id)` — contradicting the claim that it "remains unbound
… but is still reachable via direct registry lookup". -/
theorem secondUtilityContext_unreachable_cex :
    getExecutionContextById
      (onExecutionContextCreated
        (onExecutionContextCreated c8State (utilPayload 1) 0) (utilPayload 2) 0) 2 0
      = none ∧
    getExecutionContextById
      (onExecutionContextCreated
        (onExecutionContextCreated c8State (utilPayload 1) 0) (utilPayload 2) 0) 1 0
      = some 0 := by
  constructor <;> rfl

/-- C8 (amended): a second context-created event naming the reserved
utility-world name for a frame whose utility world already holds a live
context is ignored entirely: the manager state is unchanged — no
`ExecutionContext` object is created, the utility world keeps the first
context, and the second context id is not added to the registry (so it is
not reachable by `(session, context id)` lookup unless it was already
registered). -/
theorem secondUtilityContext_ignored (s : FMState) (p : ContextPayload)
    (session oid fid c : Nat) (f : Frame)
    (haux : p.auxFrameId = some fid) (hoid : getById s fid = some oid)
    (hf : frameOf s oid = some f) (hlive : f.pupWorld.context = some c)
    (hdef : ¬p.auxIsDefault) :
    onExecutionContextCreated s p session = s := by
  unfold onExecutionContextCreated
  rw [haux]
  show (match getById s fid with
    | none => s
    | some oid => _) = s
  rw [hoid]
  dsimp only
  rw [hf]
  dsimp only
  by_cases hcl : f.client ≠ session
  · rw [if_pos hcl]
  · rw [if_neg hcl, if_neg hdef,
      if_neg (fun h : p.name = UTILITY_WORLD_NAME ∧ f.pupWorld.context = none => by
        rw [h.2] at hlive
        exact Option.noConfusion hlive)]

/-- C8, witness: in the concrete two-event scenario the second event is a
complete no-op on the state reached after the first. -/
theorem secondUtilityContext_ignored_witness :
    onExecutionContextCreated (onExecutionContextCreated c8State (utilPayload 1) 0)
      (utilPayload 2) 0 = onExecutionContextCreated c8State (utilPayload 1) 0 :=
  secondUtilityContext_ignored _ (utilPayload 2) 0 0 1 0
    { newFrame 1 none 0 with pupWorld := ⟨some 0⟩ } rfl rfl (by decide) rfl (by decide)

/-! ## Claim C1: swap preserves identity -/


/-- `#onExecutionContextsCleared` touches only world bindings and the
context registry: the tree, the manager session, the allocator and every
frame's id / parent id / session are untouched. -/
theorem clearOneContext_shape (session : Nat) (s : FMState) (e : (Nat × Nat) × Nat) :
    (clearOneContext session s e).tree = s.tree ∧
    (clearOneContext session s e).client = s.client ∧
    (clearOneContext session s e).frameNavigatedReceived = s.frameNavigatedReceived ∧
    ∀ oid, (frameOf (clearOneContext session s e) oid).map frameShape
      = (frameOf s oid).map frameShape := by
  unfold clearOneContext
  cases alookup s.ecObjs e.2 with
  | none => exact ⟨rfl, rfl, rfl, fun _ => rfl⟩
  | some ec =>
    dsimp only
    by_cases hcl : ec.client = session
    · rw [if_pos hcl]
      cases hb : ec.boundTo with
      | none => exact ⟨rfl, rfl, rfl, fun _ => rfl⟩
      | some wb =>
        obtain ⟨woid, isUtil⟩ := wb
        refine ⟨rfl, rfl, rfl, fun oid => ?_⟩
        show (frameOf (clearWorldContext s woid isUtil) oid).map frameShape
          = (frameOf s oid).map frameShape
        unfold clearWorldContext
        by_cases ho : oid = woid
        · subst ho
          rw [frameOf_updFrame_self]
          cases frameOf s oid with
          | none => rfl
          | some f => cases isUtil <;> rfl
        · rw [frameOf_updFrame_ne _ _ _ _ ho]
    · rw [if_neg hcl]
      exact ⟨rfl, rfl, rfl, fun _ => rfl⟩

theorem executionContextsCleared_shape (s : FMState) (session : Nat) :
    (onExecutionContextsCleared s session).tree = s.tree ∧
    (onExecutionContextsCleared s session).client = s.client ∧
    (onExecutionContextsCleared s session).frameNavigatedReceived = s.frameNavigatedReceived ∧
    ∀ oid, (frameOf (onExecutionContextsCleared s session) oid).map frameShape
      = (frameOf s oid).map frameShape := by
  unfold onExecutionContextsCleared
  generalize s.contextIdToContext = entries
  induction entries generalizing s with
  | nil => exact ⟨rfl, rfl, rfl, fun _ => rfl⟩
  | cons e es ih =>
    have h1 := clearOneContext_shape session s e
    have h2 := ih (clearOneContext session s e)
    refine ⟨h2.1.trans h1.1, h2.2.1.trans h1.2.1, h2.2.2.1.trans h1.2.2.1, fun oid =>
      (h2.2.2.2 oid).trans (h1.2.2.2 oid)⟩

/-- `getMainFrame` only depends on the tree and on the frames' parent ids. -/
theorem getMainFrameOid_congr (s t : FMState) (htree : t.tree = s.tree)
    (hsh : ∀ oid, (frameOf t oid).map frameShape = (frameOf s oid).map frameShape) :
    getMainFrameOid t = getMainFrameOid s := by
  unfold getMainFrameOid
  rw [htree]
  congr 1
  refine find?_congr_mem _ _ _ (fun p _ => ?_)
  have h := hsh p.2
  cases hft : frameOf t p.2 with
  | none =>
    cases hfs : frameOf s p.2 with
    | none => rfl
    | some b => rw [hft, hfs] at h; exact absurd h (by simp)
  | some a =>
    cases hfs : frameOf s p.2 with
    | none => rw [hft, hfs] at h; exact absurd h (by simp)
    | some b =>
      rw [hft, hfs] at h
      have hsab : frameShape a = frameShape b := by
        simpa using h
      have hp : a.parentId = b.parentId := congrArg (fun q : Nat × Option Nat × Nat => q.2.1) hsab
      show decide (a.parentId = none) = decide (b.parentId = none)
      rw [hp]

/-- A successful `getMainFrame` returns a frame present in the heap with no
parent id. -/
theorem getMainFrameOid_spec (s : FMState) (moid : Nat) (h : getMainFrameOid s = some moid) :
    ∃ f, frameOf s moid = some f ∧ f.parentId = none := by
  unfold getMainFrameOid at h
  rcases Option.map_eq_some'.mp h with ⟨p, hp, hp2⟩
  have hpred := List.find?_some hp
  subst hp2
  cases hf : frameOf s p.2 with
  | none => rw [hf] at hpred; exact absurd hpred (by simp)
  | some f =>
    rw [hf] at hpred
    exact ⟨f, rfl, of_decide_eq_true hpred⟩

/-- The effect of `swapFrameTree`'s rebinding block on an existing frame:
the same object ends up re-keyed under the new target id, with its id
updated, both worlds cleared, and the new session bound. -/
theorem swapRebind_spec (s2 : FMState) (moid newClient newTargetId : Nat) (f2 : Frame)
    (hf : frameOf s2 moid = some f2) :
    (swapRebind s2 moid newClient newTargetId).client = s2.client ∧
    getById (swapRebind s2 moid newClient newTargetId) newTargetId = some moid ∧
    frameOf (swapRebind s2 moid newClient newTargetId) moid
      = some { f2 with id := newTargetId, mainWorld := ⟨none⟩, pupWorld := ⟨none⟩, client := newClient } := by
  have h3 : frameOf (pushNavReceived s2 newTargetId) moid = some f2 := hf
  have h4 : frameOf (removeFrame (pushNavReceived s2 newTargetId) moid) moid = some f2 := by
    rw [frameOf_removeFrame]
    exact h3
  have h5 : frameOf (updFrame (removeFrame (pushNavReceived s2 newTargetId) moid) moid
      (fun f => { f with id := newTargetId })) moid = some { f2 with id := newTargetId } := by
    rw [frameOf_updFrame_self, h4]
    rfl
  have h6 : frameOf (updFrame (updFrame (removeFrame (pushNavReceived s2 newTargetId) moid)
        moid (fun f => { f with id := newTargetId })) moid
        (fun f => { f with mainWorld := ⟨none⟩, pupWorld := ⟨none⟩ })) moid
      = some { f2 with id := newTargetId, mainWorld := ⟨none⟩, pupWorld := ⟨none⟩ } := by
    rw [frameOf_updFrame_self, h5]
    rfl
  have h7 : frameOf (addFrame (updFrame (updFrame (removeFrame
        (pushNavReceived s2 newTargetId) moid) moid (fun f => { f with id := newTargetId }))
        moid (fun f => { f with mainWorld := ⟨none⟩, pupWorld := ⟨none⟩ })) moid) moid
      = some { f2 with id := newTargetId, mainWorld := ⟨none⟩, pupWorld := ⟨none⟩ } := by
    rw [frameOf_addFrame]
    exact h6
  refine ⟨?_, ?_, ?_⟩
  · show (updFrame _ moid _).client = s2.client
    show (addFrame _ moid).client = s2.client
    rw [addFrame_client]
    show (removeFrame _ moid).client = s2.client
    rw [removeFrame_client]
    rfl
  · show alookup (swapRebind s2 moid newClient newTargetId).tree newTargetId = some moid
    unfold swapRebind
    show alookup (addFrame _ moid).tree newTargetId = some moid
    rw [addFrame_tree _ moid _ h6]
    exact alookup_aset_self _ newTargetId moid
  · unfold swapRebind
    rw [frameOf_updFrame_self, h7]
    rfl

/-- C1: when the replacement session announces itself within the swap window,
`swapFrameTree` keeps the very same `Frame` object: the state after the swap
has the new session as its client, the frame tree resolves the new target id
to the *same* frame object id, that object's id field is the new target id,
both of its worlds' contexts are cleared, its owning session is the new
session, and the swap emits no `FrameAttached` notification (only the
`FrameSwappedByActivation` signal that resolves the pending swap deferred). -/
theorem swapFrameTree_preserves_identity (s : FMState) (newClient newTargetId moid : Nat)
    (hmain : getMainFrameOid s = some moid) :
    (swapFrameTree s newClient newTargetId).1.client = newClient ∧
    getById (swapFrameTree s newClient newTargetId).1 newTargetId = some moid ∧
    (∃ g, frameOf (swapFrameTree s newClient newTargetId).1 moid = some g ∧
      g.id = newTargetId ∧ g.mainWorld = ⟨none⟩ ∧ g.pupWorld = ⟨none⟩ ∧
      g.client = newClient) ∧
    (swapFrameTree s newClient newTargetId).2 = [.frameSwappedByActivation moid] ∧
    ∀ o, FMEvent.frameAttached o ∉ (swapFrameTree s newClient newTargetId).2 := by
  have hcl := executionContextsCleared_shape s s.client
  have hmain2 : getMainFrameOid (swapBase s newClient) = some moid := by
    rw [getMainFrameOid_congr s (swapBase s newClient) hcl.1 hcl.2.2.2]
    exact hmain
  obtain ⟨f2, hf2, _⟩ := getMainFrameOid_spec _ moid hmain2
  have hsw := swapRebind_spec (swapBase s newClient) moid newClient newTargetId f2 hf2
  unfold swapFrameTree
  rw [hmain2]
  refine ⟨?_, hsw.2.1, ⟨_, hsw.2.2, rfl, rfl, rfl, rfl⟩, rfl, ?_⟩
  · rw [show ((swapRebind (swapBase s newClient) moid newClient newTargetId,
      ([.frameSwappedByActivation moid] : List FMEvent)).1.client) =
      (swapRebind (swapBase s newClient) moid newClient newTargetId).client from rfl, hsw.1]
    rfl
  · intro o h
    simp at h

/-- C1, witness: a concrete swap — the state holds main frame object 0 under
frame id 1 with session 0; after `swapFrameTree` to session 5 / target id 9,
object 0 is retrievable under id 9, re-keyed to session 5, with cleared
worlds, and no attach notification was emitted. -/
theorem swapFrameTree_preserves_identity_witness :
    getById (swapFrameTree
      { client := 0,
        frameObjs := [(0, { newFrame 1 none 0 with mainWorld := ⟨some 3⟩ })],
        tree := [(1, 0)], ecObjs := [(3, { client := 0, ctxId := 1, boundTo := some (0, false) })],
        contextIdToContext := [((0, 1), 3)],
        nextOid := 1, nextEcOid := 4, frameNavigatedReceived := [] } 5 9).1 9 = some 0 ∧
    (swapFrameTree
      { client := 0,
        frameObjs := [(0, { newFrame 1 none 0 with mainWorld := ⟨some 3⟩ })],
        tree := [(1, 0)], ecObjs := [(3, { client := 0, ctxId := 1, boundTo := some (0, false) })],
        contextIdToContext := [((0, 1), 3)],
        nextOid := 1, nextEcOid := 4, frameNavigatedReceived := [] } 5 9).2
      = [.frameSwappedByActivation 0] := by
  refine ⟨(swapFrameTree_preserves_identity _ 5 9 0 ?_).2.1,
    (swapFrameTree_preserves_identity _ 5 9 0 ?_).2.2.2.1⟩ <;> rfl

/-! ## Claims C9 and C10 -/

/-- C9, counterexample.  A method decorated with `invokeAtMostOnceForArguments`
that takes zero arguments never invokes the underlying target: on the very
first call `freshArguments` stays `false` (the `for` loop over the empty
argument list never runs), so the call returns `undefined` without invoking —
contradicting the claim that the first call with a given tuple invokes the
target and returns its result. -/
theorem invokeAtMostOnceForArguments_zeroArgs_cex :
    ¬ ((memoCall (fun _ => 5) memoInit []).invoked = true ∧
       (memoCall (fun _ => 5) memoInit []).outcome = some (some 5)) := by
  decide

/-- C9 (amended): a `invokeAtMostOnceForArguments`-decorated method invokes the
target at most once per distinct tuple of object arguments: the first call with
a given non-empty tuple invokes the target and returns its result; every repeat
call with a tuple already in the cache returns `undefined` without invoking;
a call whose argument count differs from the recorded cache depth throws an
`Error` without invoking; a call with zero arguments never invokes the
target (the loop over the arguments never runs, so `freshArguments` stays
`false` and the call returns `undefined`); and the very first call — zero
arguments included — records its argument count as the cache depth, which every
later call keeps, so a zero-argument first call fixes the arity at zero and any
later call with arguments throws the arity `Error`. -/
theorem invokeAtMostOnceForArguments_spec (target : List Nat → Nat) (st : MemoState)
    (args : List Nat) :
    (∀ d, st.cacheDepth = some d → d ≠ args.length →
      (memoCall target st args).outcome = none ∧ (memoCall target st args).invoked = false) ∧
    ((st.cacheDepth = none ∨ st.cacheDepth = some args.length) →
      hasPath st.cache args = false →
      (memoCall target st args).outcome = some (some (target args)) ∧
      (memoCall target st args).invoked = true) ∧
    ((st.cacheDepth = none ∨ st.cacheDepth = some args.length) →
      hasPath st.cache args = true →
      (memoCall target st args).outcome = some none ∧
      (memoCall target st args).invoked = false) ∧
    (args = [] → (memoCall target st args).invoked = false) ∧
    (st.cacheDepth = none →
      (memoCall target st args).state.cacheDepth = some args.length) ∧
    (∀ d, st.cacheDepth = some d →
      (memoCall target st args).state.cacheDepth = some d) := by
  refine ⟨?_, ?_, ?_, ?_, ?_, ?_⟩
  · intro d hd hne
    simp [memoCall, hd, hne]
  · intro harity hfresh
    rcases harity with h | h <;>
      simp [memoCall, h, walkInsert_snd, hfresh]
  · intro harity hrep
    rcases harity with h | h <;>
      simp [memoCall, h, walkInsert_snd, hrep]
  · intro h
    subst h
    rcases hd : st.cacheDepth with _ | d
    · simp [memoCall, hd, walkInsert_snd, hasPath]
    · by_cases hz : d = 0 <;> simp [memoCall, hd, hz, walkInsert_snd, hasPath]
  · intro hd
    by_cases hw : (walkInsert st.cache args).2 <;> simp [memoCall, hd, hw]
  · intro d hd
    by_cases h : d = args.length <;>
      by_cases hw : (walkInsert st.cache args).2 <;> simp [memoCall, hd, h, hw]

/-- C9, witness: the amended spec at concrete inputs — a first 1-argument call
invokes and returns the target's value, the repeat call returns `undefined`
without invoking, a call with a different arity throws, a 0-argument call
never invokes, a first 0-argument call records cache depth 0, and a later
1-argument call on that state throws. -/
theorem invokeAtMostOnceForArguments_spec_witness :
    ((memoCall (fun l => l.length + 10) memoInit [3]).outcome = some (some 11) ∧
     (memoCall (fun l => l.length + 10) memoInit [3]).invoked = true) ∧
    ((memoCall (fun l => l.length + 10)
        (memoCall (fun l => l.length + 10) memoInit [3]).state [3]).outcome = some none ∧
     (memoCall (fun l => l.length + 10)
        (memoCall (fun l => l.length + 10) memoInit [3]).state [3]).invoked = false) ∧
    ((memoCall (fun l => l.length + 10)
        (memoCall (fun l => l.length + 10) memoInit [3]).state [4, 5]).outcome = none) ∧
    ((memoCall (fun l => l.length + 10) memoInit []).invoked = false) ∧
    ((memoCall (fun l => l.length + 10) memoInit []).state.cacheDepth = some 0) ∧
    ((memoCall (fun l => l.length + 10)
        (memoCall (fun l => l.length + 10) memoInit []).state [3]).outcome = none) := by
  refine ⟨?_, ?_, ?_, ?_, ?_, ?_⟩
  · exact (invokeAtMostOnceForArguments_spec (fun l => l.length + 10) memoInit [3]).2.1
      (Or.inl rfl) (by decide)
  · exact (invokeAtMostOnceForArguments_spec (fun l => l.length + 10)
      (memoCall (fun l => l.length + 10) memoInit [3]).state [3]).2.2.1
      (Or.inr (by decide)) (by decide)
  · exact ((invokeAtMostOnceForArguments_spec (fun l => l.length + 10)
      (memoCall (fun l => l.length + 10) memoInit [3]).state [4, 5]).1 1 (by decide)
      (by decide)).1
  · exact (invokeAtMostOnceForArguments_spec (fun l => l.length + 10) memoInit []).2.2.2.1 rfl
  · exact (invokeAtMostOnceForArguments_spec (fun l => l.length + 10) memoInit []).2.2.2.2.1 rfl
  · exact ((invokeAtMostOnceForArguments_spec (fun l => l.length + 10)
      (memoCall (fun l => l.length + 10) memoInit []).state [3]).1 0 (by decide)
      (by decide)).1

/-- C10: for a `moveable`-decorated class, the `move()` suppression is
one-shot: after `move()`, the next `dispose` (resp. `asyncDispose`) call does
not run the original dispose body, any dispose call after that suppressed one
does run the original body, and an instance that was never moved disposes
normally on the first call. -/
theorem moveable_move_one_shot (s : MovState) :
    ((disposeCall (moveCall s)).disposeRuns = s.disposeRuns ∧
     (asyncDisposeCall (moveCall s)).asyncDisposeRuns = s.asyncDisposeRuns) ∧
    ((disposeCall (disposeCall (moveCall s))).disposeRuns = s.disposeRuns + 1 ∧
     (asyncDisposeCall (asyncDisposeCall (moveCall s))).asyncDisposeRuns
        = s.asyncDisposeRuns + 1) ∧
    (s.moved = false →
      (disposeCall s).disposeRuns = s.disposeRuns + 1 ∧
      (asyncDisposeCall s).asyncDisposeRuns = s.asyncDisposeRuns + 1) := by
  refine ⟨⟨?_, ?_⟩, ⟨?_, ?_⟩, fun h => ⟨?_, ?_⟩⟩ <;>
    simp_all [moveCall, disposeCall, asyncDisposeCall]

/-- C10, witness: the one-shot suppression at a concrete never-moved instance. -/
theorem moveable_move_one_shot_witness :
    (disposeCall (moveCall ⟨false, 0, 0⟩)).disposeRuns = 0 ∧
    (disposeCall (disposeCall (moveCall ⟨false, 0, 0⟩))).disposeRuns = 1 ∧
    (disposeCall ⟨false, 0, 0⟩).disposeRuns = 1 := by
  refine ⟨(moveable_move_one_shot ⟨false, 0, 0⟩).1.1,
    (moveable_move_one_shot ⟨false, 0, 0⟩).2.1.1,
    ((moveable_move_one_shot ⟨false, 0, 0⟩).2.2 rfl).1⟩

end Puppeteer
